import Mathlib

/-!
Verification of the VCD (Value Change Dump) writer `vcd/writer.py`.

The Python module is shallowly embedded below: every definition mirrors the
corresponding Python function or method; stateful methods become explicit
state-passing functions on the `VCDWriter` structure, printing becomes an
explicit list of emitted output lines, and raised exceptions become error
results that carry the (possibly partially mutated) state, exactly as a
caught Python exception would leave the object.
-/

namespace VCD

/-! ### String ordering

Python compares strings lexicographically by code point and tuples of strings
lexicographically element-wise.  These comparators mirror that; they are written
as plain structural recursions so that concrete runs reduce inside the kernel.
-/

/-- Python `<` on strings, on the underlying character lists
(lexicographic by code point). -/
def charListLt : List Char → List Char → Bool
  | [], [] => false
  | [], _ :: _ => true
  | _ :: _, [] => false
  | a :: as, b :: bs =>
    if a.toNat < b.toNat then true
    else if a = b then charListLt as bs
    else false

/-- Python `<` on strings. -/
def strLt (a b : String) : Bool := charListLt a.data b.data

/-- Python `<` on tuples of strings (scope paths). -/
def pathLt : List String → List String → Bool
  | [], [] => false
  | [], _ :: _ => true
  | _ :: _, [] => false
  | a :: as, b :: bs =>
    if strLt a b then true
    else if a = b then pathLt as bs
    else false

theorem Char.eq_of_toNat_eq' {x y : Char} (h : x.toNat = y.toNat) : x = y :=
  Char.ext (UInt32.ext h)

theorem charListLt_trichotomy (a b : List Char) :
    charListLt a b = true ∨ a = b ∨ charListLt b a = true := by
  induction a generalizing b with
  | nil => cases b <;> simp [charListLt]
  | cons x xs ih =>
    cases b with
    | nil => simp [charListLt]
    | cons y ys =>
      rcases Nat.lt_trichotomy x.toNat y.toNat with h | h | h
      · left; simp [charListLt, h]
      · have hxy : x = y := Char.eq_of_toNat_eq' h
        subst hxy
        rcases ih ys with h' | h' | h'
        · left; simp [charListLt, h']
        · right; left; simp [h']
        · right; right; simp [charListLt, h']
      · right; right; simp [charListLt, h]

theorem charListLt_asymm {a b : List Char} (h : charListLt a b = true) :
    charListLt b a = false := by
  induction a generalizing b with
  | nil =>
    cases b with
    | nil => simp [charListLt] at h
    | cons y ys => simp [charListLt]
  | cons x xs ih =>
    cases b with
    | nil => simp [charListLt] at h
    | cons y ys =>
      simp only [charListLt] at h ⊢
      by_cases hvlt : x.toNat < y.toNat
      · have hyx : ¬ y.toNat < x.toNat := by omega
        have hne : ¬ y = x := by
          intro hc; subst hc; omega
        simp [hyx, hne]
      · simp only [hvlt, if_false] at h
        by_cases hxy : x = y
        · subst hxy
          simp only [if_pos rfl] at h ⊢
          have hli : ¬ x.toNat < x.toNat := by omega
          simp [hli, ih h]
        · simp [hxy] at h

theorem charListLt_trans {a b c : List Char} (hab : charListLt a b = true)
    (hbc : charListLt b c = true) : charListLt a c = true := by
  induction a generalizing b c with
  | nil =>
    cases c with
    | nil =>
      cases b with
      | nil => simp [charListLt] at hab
      | cons y ys => simp [charListLt] at hbc
    | cons z zs => simp [charListLt]
  | cons x xs ih =>
    cases b with
    | nil => simp [charListLt] at hab
    | cons y ys =>
      cases c with
      | nil => simp [charListLt] at hbc
      | cons z zs =>
        simp only [charListLt] at hab hbc ⊢
        by_cases h1 : x.toNat < y.toNat
        · by_cases h2 : y.toNat < z.toNat
          · have : x.toNat < z.toNat := by omega
            simp [this]
          · simp only [h2, if_false] at hbc
            by_cases h3 : y = z
            · subst h3; simp [h1]
            · simp [h3] at hbc
        · simp only [h1, if_false] at hab
          by_cases h3 : x = y
          · subst h3
            simp only [if_pos rfl] at hab
            by_cases h2 : x.toNat < z.toNat
            · simp [h2]
            · simp only [h2, if_false] at hbc ⊢
              by_cases h4 : x = z
              · subst h4; simp only [if_pos rfl] at hbc ⊢; exact ih hab hbc
              · simp [h4] at hbc
          · simp [h3] at hab

theorem strLt_trichotomy (a b : String) :
    strLt a b = true ∨ a = b ∨ strLt b a = true := by
  rcases charListLt_trichotomy a.data b.data with h | h | h
  · exact Or.inl h
  · cases a; cases b; simp only at h; subst h; exact Or.inr (Or.inl rfl)
  · exact Or.inr (Or.inr h)

theorem strLt_asymm {a b : String} (h : strLt a b = true) : strLt b a = false :=
  charListLt_asymm h

theorem strLt_trans {a b c : String} (hab : strLt a b = true)
    (hbc : strLt b c = true) : strLt a c = true :=
  charListLt_trans hab hbc

theorem pathLt_trichotomy (a b : List String) :
    pathLt a b = true ∨ a = b ∨ pathLt b a = true := by
  induction a generalizing b with
  | nil => cases b <;> simp [pathLt]
  | cons x xs ih =>
    cases b with
    | nil => simp [pathLt]
    | cons y ys =>
      rcases strLt_trichotomy x y with h | h | h
      · left; simp [pathLt, h]
      · subst h
        rcases ih ys with h' | h' | h'
        · left; simp [pathLt, h']
        · right; left; simp [h']
        · right; right; simp [pathLt, h']
      · right; right
        have hxy : strLt x y = false := strLt_asymm h
        have hne : ¬ y = x := by
          intro hc; subst hc; rw [h] at hxy; exact absurd hxy (by simp)
        simp [pathLt, h]

theorem pathLt_asymm {a b : List String} (h : pathLt a b = true) :
    pathLt b a = false := by
  induction a generalizing b with
  | nil =>
    cases b with
    | nil => simp [pathLt] at h
    | cons y ys => simp [pathLt]
  | cons x xs ih =>
    cases b with
    | nil => simp [pathLt] at h
    | cons y ys =>
      simp only [pathLt] at h ⊢
      by_cases h1 : strLt x y
      · have h2 : strLt y x = false := strLt_asymm h1
        have hne : ¬ y = x := by
          intro hc; subst hc; rw [h1] at h2; exact absurd h2 (by simp)
        simp [h2, hne]
      · simp only [h1, if_false] at h
        by_cases h3 : x = y
        · subst h3
          simp only [if_pos rfl] at h ⊢
          simp [h1, ih h]
        · simp [h3] at h

theorem pathLt_trans {a b c : List String} (hab : pathLt a b = true)
    (hbc : pathLt b c = true) : pathLt a c = true := by
  induction a generalizing b c with
  | nil =>
    cases c with
    | nil =>
      cases b with
      | nil => simp [pathLt] at hab
      | cons y ys => simp [pathLt] at hbc
    | cons z zs => simp [pathLt]
  | cons x xs ih =>
    cases b with
    | nil => simp [pathLt] at hab
    | cons y ys =>
      cases c with
      | nil => simp [pathLt] at hbc
      | cons z zs =>
        simp only [pathLt] at hab hbc ⊢
        by_cases h1 : strLt x y
        · by_cases h2 : strLt y z
          · simp [strLt_trans h1 h2]
          · simp only [h2, if_false] at hbc
            by_cases h3 : y = z
            · subst h3; simp [h1]
            · simp [h3] at hbc
        · simp only [h1, if_false] at hab
          by_cases h3 : x = y
          · subst h3
            simp only [if_pos rfl] at hab
            by_cases h2 : strLt x z
            · simp [h2]
            · simp only [h2, if_false] at hbc ⊢
              by_cases h4 : x = z
              · subst h4; simp only [if_pos rfl] at hbc ⊢; exact ih hab hbc
              · simp [h4] at hbc
          · simp [h3] at hab

/-! ### Sorting

Python `sorted()` is a stable ascending sort.  Everywhere the writer sorts, the
sorted keys are pairwise distinct (dictionary keys), so stability is
irrelevant; an insertion sort with a `≤`-style boolean comparator models it. -/

/-- Insert `x` into `l` before the first element `y` with `le x y`. -/
def insertBy (le : α → α → Bool) (x : α) : List α → List α
  | [] => [x]
  | y :: ys => if le x y then x :: y :: ys else y :: insertBy le x ys

/-- Insertion sort with comparator `le`; models Python `sorted`. -/
def sortBy (le : α → α → Bool) : List α → List α
  | [] => []
  | x :: xs => insertBy le x (sortBy le xs)

theorem insertBy_perm (le : α → α → Bool) (x : α) (l : List α) :
    (insertBy le x l).Perm (x :: l) := by
  induction l with
  | nil => simp [insertBy]
  | cons y ys ih =>
    simp only [insertBy]
    by_cases h : le x y
    · simp [h]
    · simp only [h, if_false]
      exact (ih.cons y).trans (List.Perm.swap x y ys)

theorem sortBy_perm (le : α → α → Bool) (l : List α) :
    (sortBy le l).Perm l := by
  induction l with
  | nil => simp [sortBy]
  | cons x xs ih =>
    simp only [sortBy]
    exact (insertBy_perm le x (sortBy le xs)).trans (ih.cons x)

theorem sorted_insertBy (le : α → α → Bool)
    (htot : ∀ a b, le a b = true ∨ le b a = true)
    (htrans : ∀ a b c, le a b = true → le b c = true → le a c = true)
    (x : α) (l : List α) (hl : l.Pairwise (fun a b => le a b = true)) :
    (insertBy le x l).Pairwise (fun a b => le a b = true) := by
  induction l with
  | nil => simp [insertBy]
  | cons y ys ih =>
    rcases List.pairwise_cons.mp hl with ⟨hy, hys⟩
    simp only [insertBy]
    by_cases h : le x y
    · simp only [h, if_true]
      refine List.pairwise_cons.mpr ⟨?_, hl⟩
      intro z hz
      rcases List.mem_cons.mp hz with hz | hz
      · subst hz; exact h
      · exact htrans x y z h (hy z hz)
    · simp only [h, if_false]
      refine List.pairwise_cons.mpr ⟨?_, ih hys⟩
      intro z hz
      have hperm := insertBy_perm le x ys
      have hz2 : z ∈ x :: ys := hperm.mem_iff.mp hz
      rcases List.mem_cons.mp hz2 with hz3 | hz3
      · have h4 : le y x = true := by
          rcases htot x y with h' | h'
          · exact absurd h' h
          · exact h'
        rw [hz3]
        exact h4
      · exact hy z hz3

theorem sorted_sortBy (le : α → α → Bool)
    (htot : ∀ a b, le a b = true ∨ le b a = true)
    (htrans : ∀ a b c, le a b = true → le b c = true → le a c = true)
    (l : List α) : (sortBy le l).Pairwise (fun a b => le a b = true) := by
  induction l with
  | nil => simp [sortBy]
  | cons x xs ih => exact sorted_insertBy le htot htrans x (sortBy le xs) ih

/-! ### Binary formatting

`'{:b}'.format(n)` renders a non-negative integer in binary with no leading
zeros (and `'0'` for zero). -/

/-- Binary digits of `n`, least-significant first, with `fuel ≥ n` as a
structural bound (so that concrete values reduce in the kernel). -/
def bitsLE : Nat → Nat → List Nat
  | 0, _ => []
  | _ + 1, 0 => []
  | fuel + 1, n + 1 => (n + 1) % 2 :: bitsLE fuel ((n + 1) / 2)

/-- One binary digit character. -/
def bitChar (d : Nat) : Char := if d = 1 then '1' else '0'

/-- Python `'{:b}'.format(n)` for `n ≥ 0`. -/
def pythonBin (n : Nat) : String :=
  if n = 0 then "0" else String.mk (((bitsLE n n).reverse).map bitChar)

/-- Decode a most-significant-first binary character string (the inverse
direction used to state the round-trip property). -/
def msbDecode (l : List Char) : Nat :=
  l.foldl (fun a c => 2 * a + (if c = '1' then 1 else 0)) 0

/-- Decode the digit portion of an emitted vector value as unsigned binary. -/
def strBinValue (s : String) : Nat := msbDecode s.data

theorem msbDecode_append (l : List Char) (c : Char) :
    msbDecode (l ++ [c]) = 2 * msbDecode l + (if c = '1' then 1 else 0) := by
  simp [msbDecode, List.foldl_append]

theorem msbDecode_bitsLE (fuel n : Nat) (h : n ≤ fuel) :
    msbDecode (((bitsLE fuel n).reverse).map bitChar) = n := by
  induction fuel generalizing n with
  | zero =>
    have hn : n = 0 := Nat.le_zero.mp h
    subst hn
    simp [bitsLE, msbDecode]
  | succ f ih =>
    cases n with
    | zero => simp [bitsLE, msbDecode]
    | succ m =>
      have hdiv : (m + 1) / 2 ≤ f := by
        have h1 : (m + 1) / 2 < m + 1 := Nat.div_lt_self (Nat.succ_pos m) (by omega)
        omega
      have hrec := ih ((m + 1) / 2) hdiv
      have hsplit := Nat.div_add_mod (m + 1) 2
      simp only [bitsLE, List.reverse_cons, List.map_append, List.map_cons,
        List.map_nil, msbDecode_append, hrec]
      rcases Nat.mod_two_eq_zero_or_one (m + 1) with hm | hm <;>
        simp [bitChar, hm] <;> omega

theorem strBinValue_pythonBin (n : Nat) : strBinValue (pythonBin n) = n := by
  by_cases h : n = 0
  · subst h; decide
  · simp only [pythonBin, if_neg h, strBinValue]
    exact msbDecode_bitsLE n n (le_refl n)

/-! ### Values and errors

Python values that can reach the encoders: `int`, `bool`, `str`, `float`,
`None`.  Python floats are modelled by their integral values only — the sole
float the module itself produces is the default real initial value `0.0`, and
`'{:.16g}'` renders such integral numerics as their plain decimal digits in
the magnitude range exercised here. -/

inductive Value where
  | vInt : Int → Value
  | vBool : Bool → Value
  | vStr : String → Value
  | vFloat : Int → Value
  | vNone : Value
deriving DecidableEq, Repr

/-- Exceptions raised by the writer: `VCDPhaseError`, `ValueError` (invalid
values and arguments), `KeyError` (duplicate names). -/
inductive VCDError where
  | phaseError : String → VCDError
  | valueError : String → VCDError
  | keyError : String → VCDError
deriving DecidableEq, Repr

/-! ### Variable encoders -/

/-- `ScalarVariable.format_value`: the string branch checks length 1 and
membership in `'01xzXZ'` and returns the character verbatim; `None` renders as
`z`; any numeric renders by truthiness. -/
def ScalarVariable.format_value (ident : String) (value : Value) :
    Except VCDError String :=
  match value with
  | .vStr s =>
    if s.length ≠ 1 ∨ ¬ (s = "0" ∨ s = "1" ∨ s = "x" ∨ s = "z" ∨ s = "X" ∨ s = "Z") then
      .error (.valueError ("Invalid scalar value (" ++ s ++ ")"))
    else
      .ok (s ++ ident)
  | .vNone => .ok ("z" ++ ident)
  | .vBool b => .ok ((if b then "1" else "0") ++ ident)
  | .vInt i => .ok ((if i ≠ 0 then "1" else "0") ++ ident)
  | .vFloat f => .ok ((if f ≠ 0 then "1" else "0") ++ ident)

/-- `RealVariable.format_value`: accepts any `numbers.Number` (ints, floats and
bools included), rejects strings and `None`. -/
def RealVariable.format_value (ident : String) (value : Value) :
    Except VCDError String :=
  match value with
  | .vInt i => .ok ("r" ++ toString i ++ " " ++ ident)
  | .vFloat f => .ok ("r" ++ toString f ++ " " ++ ident)
  | .vBool b => .ok ("r" ++ (if b then "1" else "0") ++ " " ++ ident)
  | .vStr s => .error (.valueError ("Invalid real value (" ++ s ++ ")"))
  | .vNone => .error (.valueError "Invalid real value (None)")

/-- The integer branch of `VectorVariable.format_value`:
`max_val = 1 << size`, reject when `-value > (max_val >> 1) or value >=
max_val`, add `max_val` to negative values, then format as unprefixed
binary. -/
def vectorIntFormat (ident : String) (size : Nat) (v : Int) :
    Except VCDError String :=
  let max_val : Int := 2 ^ size
  if -v > max_val / 2 ∨ v ≥ max_val then
    .error (.valueError ("Value (" ++ toString v ++ ") not representable in " ++
      toString size ++ " bits"))
  else
    let adjusted := if v < 0 then v + max_val else v
    .ok ("b" ++ pythonBin adjusted.toNat ++ " " ++ ident)

/-- `VectorVariable.format_value`: int (and bool — a Python `int` instance)
uses the two's-complement integer branch; `None` renders as `bz`; strings are
length-checked but their characters are deliberately not validated. -/
def VectorVariable.format_value (ident : String) (size : Nat) (value : Value) :
    Except VCDError String :=
  match value with
  | .vInt v => vectorIntFormat ident size v
  | .vBool b => vectorIntFormat ident size (if b then 1 else 0)
  | .vNone => .ok ("bz " ++ ident)
  | .vStr s =>
    if s.length ≤ size then .ok ("b" ++ s ++ " " ++ ident)
    else .error (.valueError ("Invalid vector value (" ++ s ++ ")"))
  | .vFloat _ => .error (.valueError "Invalid vector value")

/-- Which of the three `Variable` subclasses an instance belongs to. -/
inductive VarKind where
  | scalar
  | real
  | vector
deriving DecidableEq, Repr

/-- A registered variable handle: ident, VCD type string and bit size, plus
the subclass that decides the encoder. -/
structure Variable where
  kind : VarKind
  ident : String
  type : String
  size : Nat
deriving DecidableEq, Repr

/-- Encoder dispatch by subclass. -/
def Variable.format_value (var : Variable) (value : Value) :
    Except VCDError String :=
  match var.kind with
  | .scalar => ScalarVariable.format_value var.ident value
  | .real => RealVariable.format_value var.ident value
  | .vector => VectorVariable.format_value var.ident var.size value

/-- The subclass selection in `register_var` (lines 151-156): `size == 1`
first, then `var_type == 'real'`, else vector. -/
def mkVariable (ident var_type : String) (size : Nat) : Variable :=
  if size = 1 then ⟨.scalar, ident, var_type, size⟩
  else if var_type = "real" then ⟨.real, ident, var_type, size⟩
  else ⟨.vector, ident, var_type, size⟩

/-! ### Association-list operations with Python `dict` semantics

Updating an existing key keeps its position; a new key is appended (insertion
order, as in `dict`/`OrderedDict`). -/

def assocGet? [DecidableEq α] (k : α) : List (α × β) → Option β
  | [] => none
  | (k', v) :: rest => if k' = k then some v else assocGet? k rest

def assocSet [DecidableEq α] (k : α) (v : β) : List (α × β) → List (α × β)
  | [] => [(k, v)]
  | (k', v') :: rest =>
    if k' = k then (k, v) :: rest else (k', v') :: assocSet k v rest

/-- `d.setdefault(k, dflt)`: the current value (inserting `dflt` if absent)
together with the updated dictionary. -/
def assocSetdefault [DecidableEq α] (k : α) (dflt : β) (l : List (α × β)) :
    β × List (α × β) :=
  match assocGet? k l with
  | some v => (v, l)
  | none => (dflt, l ++ [(k, dflt)])

/-- `d.setdefault(k, []).append(x)`. -/
def assocAppend [DecidableEq α] (k : α) (x : β) :
    List (α × List β) → List (α × List β)
  | [] => [(k, [x])]
  | (k', l) :: rest =>
    if k' = k then (k', l ++ [x]) :: rest else (k', l) :: assocAppend k x rest

/-! ### Writer state -/

/-- The mutable state of a `VCDWriter` instance.  The output file is replaced
by the list of emitted lines that each operation returns. -/
structure VCDWriter where
  header_keywords : List (String × String)
  default_scope_type : String
  scope_sep : String
  registering : Bool
  closed : Bool
  dumping : Bool
  next_var_id : Nat
  scope_var_strs : List (List String × List String)
  scope_var_names : List (List String × List String)
  scope_types : List (List String × Option String)
  ident_values : List (String × String)
  prev_timestamp : Nat
deriving DecidableEq, Repr

/-- Valid VCD scope types. -/
def SCOPE_TYPES : List String := ["begin", "fork", "function", "module", "task"]

/-- Valid VCD variable types. -/
def VAR_TYPES : List String :=
  ["event", "integer", "parameter", "real", "realtime", "reg",
   "supply0", "supply1", "time", "tri", "triand", "trior",
   "trireg", "tri0", "tri1", "wand", "wire", "wor"]

/-- `VCDWriter.__init__`.  The `date` default (`datetime.now()`) is an outside
input and is passed in as a string; timescale validation is a pure check on
construction arguments and is not needed by any claim. -/
def VCDWriter.init
    (timescale date comment version default_scope_type scope_sep : String) :
    VCDWriter :=
  { header_keywords :=
      [("$timescale", timescale), ("$date", date),
       ("$comment", comment), ("$version", version)],
    default_scope_type := default_scope_type,
    scope_sep := scope_sep,
    registering := true,
    closed := false,
    dumping := true,
    next_var_id := 0,
    scope_var_strs := [],
    scope_var_names := [],
    scope_types := [],
    ident_values := [],
    prev_timestamp := 0 }

/-- Result of one method call: the raised exception if any, the state the
object is left in (Python exceptions leave prior mutations in place), and the
lines printed to the output file before returning or raising. -/
structure OpResult where
  err : Option VCDError
  st : VCDWriter
  out : List String
deriving DecidableEq, Repr

/-- Result of `register_var`: additionally the returned variable handle. -/
structure RegResult where
  err : Option VCDError
  st : VCDWriter
  out : List String
  var : Option Variable
deriving DecidableEq, Repr

/-! ### Header generation (`_gen_header`) -/

/-- Python `str.split('\n')` on the character list (always non-empty). -/
def splitOnNl : List Char → List (List Char)
  | [] => [[]]
  | c :: rest =>
    match splitOnNl rest with
    | [] => [[]]
    | h :: t => if c = '\n' then [] :: h :: t else (c :: h) :: t

def splitLines (s : String) : List String := (splitOnNl s.data).map String.mk

/-- Comparator for `sorted(six.iteritems(self._header_keywords))`; the keys
are pairwise distinct so the value tie-break never fires. -/
def kwPairLe (p q : String × String) : Bool := !(strLt q.1 p.1)

/-- Keyword lines of the header: keys in sorted order, falsy values skipped,
single-line values inline, multi-line values as an indented block. -/
def genHeaderKeywordLines (kws : List (String × String)) : List String :=
  (sortBy kwPairLe kws).foldr
    (fun kv acc =>
      (if kv.2 = "" then []
       else
         match splitLines kv.2 with
         | [single] => [kv.1 ++ " " ++ single ++ " $end"]
         | lines => [kv.1] ++ lines.map (fun ln => "\t" ++ ln) ++ ["$end"]) ++ acc)
    []

/-- Length of the common prefix of the previous and current scope paths (the
index at which the `zip_longest` comparison loop first differs). -/
def commonPrefixLen : List String → List String → Nat
  | a :: as, b :: bs => if a = b then commonPrefixLen as bs + 1 else 0
  | _, _ => 0

/-- `self._scope_types.get(sub_path, self._default_scope_type)`: a key that is
present with a stored `None` yields `None`, which `'{}'.format` renders as the
literal string `None`. -/
def resolveScopeType (scope_types : List (List String × Option String))
    (dflt : String) (sub : List String) : String :=
  match assocGet? sub scope_types with
  | some (some t) => t
  | some none => "None"
  | none => dflt

/-- The `$scope` lines opened for the new path segments beyond the common
prefix; `done` is the cumulative sub-path already open. -/
def scopeOpenLines (scope_types : List (List String × Option String))
    (dflt : String) : List String → List String → List String
  | _, [] => []
  | done, name :: rest =>
    ("$scope " ++ resolveScopeType scope_types dflt (done ++ [name]) ++ " " ++
        name ++ " $end")
      :: scopeOpenLines scope_types dflt (done ++ [name]) rest

/-- The `$upscope`/`$scope` lines emitted between the previous scope path and
the current one. -/
def scopeDiffLines (scope_types : List (List String × Option String))
    (dflt : String) (prev scope : List String) : List String :=
  let i := commonPrefixLen prev scope
  (prev.drop i).map (fun _ => "$upscope $end") ++
    scopeOpenLines scope_types dflt (scope.take i) (scope.drop i)

/-- Comparator for `sorted(self._scope_var_strs)`: the scope-path keys are
pairwise distinct dictionary keys. -/
def varPairLe (p q : (List String × List String)) : Bool := !(pathLt q.1 p.1)

/-- The scope portion of the header: visit the sorted scope paths, emitting
prefix-diff lines and the staged `$var` lines, then close the last path and
emit `$enddefinitions $end`. -/
def scopeSection (scope_types : List (List String × Option String))
    (dflt : String) : List String → List (List String × List String) → List String
  | prev, [] => prev.map (fun _ => "$upscope $end") ++ ["$enddefinitions $end"]
  | prev, (scope, var_strs) :: rest =>
    scopeDiffLines scope_types dflt prev scope ++ var_strs ++
      scopeSection scope_types dflt scope rest

/-- `VCDWriter._gen_header`. -/
def gen_header (w : VCDWriter) : List String :=
  genHeaderKeywordLines w.header_keywords ++
    scopeSection w.scope_types w.default_scope_type []
      (sortBy varPairLe w.scope_var_strs)

/-! ### Dump blocks -/

/-- `VCDWriter._dump_values`: the keyword, every cached value string on its
own line, then `$end`.  (`print(*[], sep='\n')` would emit one empty line;
every caller guards against an empty cache.) -/
def dumpValuesLines (keyword : String) (vals : List (String × String)) :
    List String :=
  [keyword] ++ (match vals with
    | [] => [""]
    | vs => vs.map Prod.snd) ++ ["$end"]

/-- One line of a `$dumpoff` block: vectors (`b…`) become `bx`, reals (`r…`)
are skipped, anything else becomes `x` glued to the ident. -/
def dumpOffValueLine (iv : String × String) : Option String :=
  match iv.2.data with
  | 'b' :: _ => some ("bx " ++ iv.1)
  | 'r' :: _ => none
  | _ => some ("x" ++ iv.1)

/-- `VCDWriter._dump_off`: timestamp marker, `$dumpoff` block of unknown
values, `$end`. -/
def dumpOffLines (timestamp : Nat) (vals : List (String × String)) :
    List String :=
  ["#" ++ toString timestamp, "$dumpoff"] ++ vals.filterMap dumpOffValueLine ++
    ["$end"]

/-! ### Writer operations -/

/-- `VCDWriter._finalize_registration`: print the header, the `$dumpvars`
block when any value is cached (followed by a `$dumpoff` block at time 0 when
dumping is already suspended), leave the registration phase and discard
registry-only state (`_gen_header` popped every `scope_var_strs` entry). -/
def finalize_registration (w : VCDWriter) : VCDWriter × List String :=
  let header := gen_header w
  let post :=
    if w.ident_values ≠ [] then
      dumpValuesLines "$dumpvars" w.ident_values ++
        (if w.dumping then [] else dumpOffLines 0 w.ident_values)
    else []
  ({ w with registering := false,
            scope_var_strs := [],
            header_keywords := [],
            scope_types := [],
            scope_var_names := [] },
   header ++ post)

/-- `VCDWriter.change`. -/
def change (w : VCDWriter) (var : Variable) (timestamp : Nat) (value : Value) :
    OpResult :=
  if timestamp < w.prev_timestamp then
    ⟨some (.phaseError "Out of order value change"), w, []⟩
  else if w.closed then
    ⟨some (.phaseError "Cannot change value after close()"), w, []⟩
  else
    match var.format_value value with
    | .error e => ⟨some e, w, []⟩
    | .ok val_str =>
      let fr := if timestamp ≠ 0 ∧ w.registering then finalize_registration w
                else (w, [])
      let w1 := fr.1
      if timestamp ≠ 0 ∧ w1.dumping then
        if timestamp > w1.prev_timestamp then
          ⟨none, { w1 with prev_timestamp := timestamp },
            fr.2 ++ ["#" ++ toString timestamp, val_str]⟩
        else
          ⟨none, w1, fr.2 ++ [val_str]⟩
      else
        ⟨none,
          { w1 with ident_values := assocSet var.ident val_str w1.ident_values },
          fr.2⟩

/-- `VCDWriter.register_var`.  `scope` is the already-split scope tuple. -/
def register_var (w : VCDWriter) (scope : List String) (name var_type : String)
    (size : Nat) (init : Value) (identArg : Option String) : RegResult :=
  if w.closed then
    ⟨some (.phaseError "Cannot register after close()."), w, [], none⟩
  else if ¬ w.registering then
    ⟨some (.phaseError "Cannot register after time 0."), w, [], none⟩
  else if ¬ VAR_TYPES.contains var_type then
    ⟨some (.valueError ("Invalid var_type " ++ var_type)), w, [], none⟩
  else
    let sd := assocSetdefault scope ([] : List String) w.scope_var_names
    let w1 := { w with scope_var_names := sd.2 }
    if sd.1.contains name then
      ⟨some (.keyError ("Duplicate var " ++ name)), w1, [], none⟩
    else
      let ident := identArg.getD ("v" ++ toString w.next_var_id)
      let var_str := "$var " ++ var_type ++ " " ++ toString size ++ " " ++
        ident ++ " " ++ name ++ " $end"
      let init' := if init = Value.vNone then
          (if var_type = "real" then Value.vFloat 0 else Value.vStr "x")
        else init
      let var := mkVariable ident var_type size
      let cr := change w1 var 0 init'
      match cr.err with
      | some e => ⟨some e, cr.st, cr.out, none⟩
      | none =>
        ⟨none,
          { cr.st with
              next_var_id := cr.st.next_var_id + 1,
              scope_var_strs := assocAppend scope var_str cr.st.scope_var_strs,
              scope_var_names := assocAppend scope name cr.st.scope_var_names },
          cr.out, some var⟩

/-- `VCDWriter.register_int`: forwards everything, with `var_type='integer'`. -/
def register_int (w : VCDWriter) (scope : List String) (name : String)
    (size : Nat) (init : Value) (identArg : Option String) : RegResult :=
  register_var w scope name "integer" size init identArg

/-- `VCDWriter.register_real`: forwards with `var_type='real'` but passes
`ident=None`, discarding the caller's `ident` argument (source line 185). -/
def register_real (w : VCDWriter) (scope : List String) (name : String)
    (size : Nat) (init : Value) (identArg : Option String) : RegResult :=
  register_var w scope name "real" size init none

/-- `VCDWriter.register_event`: forwards everything, with `var_type='event'`. -/
def register_event (w : VCDWriter) (scope : List String) (name : String)
    (size : Nat) (init : Value) (identArg : Option String) : RegResult :=
  register_var w scope name "event" size init identArg

/-- `VCDWriter.dump_off`: writes a `$dumpoff` block only when dumping is on,
registration is over and the cache is non-empty; always clears the dumping
flag.  Note: no closed-phase check. -/
def dump_off (w : VCDWriter) (timestamp : Nat) : OpResult :=
  let out :=
    if w.dumping ∧ ¬ w.registering ∧ w.ident_values ≠ [] then
      dumpOffLines timestamp w.ident_values
    else []
  ⟨none, { w with dumping := false }, out⟩

/-- `VCDWriter.dump_on`: writes a timestamp marker and a `$dumpon` block of
the cached values only when dumping is off, registration is over and the
cache is non-empty; always sets the dumping flag.  Note: no closed-phase
check. -/
def dump_on (w : VCDWriter) (timestamp : Nat) : OpResult :=
  let out :=
    if ¬ w.dumping ∧ ¬ w.registering ∧ w.ident_values ≠ [] then
      ("#" ++ toString timestamp) :: dumpValuesLines "$dumpon" w.ident_values
    else []
  ⟨none, { w with dumping := true }, out⟩

/-- `VCDWriter.set_scope_type`: `None` is accepted and stored; a non-member
tag raises `ValueError` before any mutation. -/
def set_scope_type (w : VCDWriter) (scope : List String)
    (scope_type : Option String) : OpResult :=
  match scope_type with
  | some t =>
    if ¬ SCOPE_TYPES.contains t then
      ⟨some (.valueError ("Invalid scope_type " ++ t)), w, []⟩
    else
      ⟨none, { w with scope_types := assocSet scope (some t) w.scope_types }, []⟩
  | none =>
    ⟨none, { w with scope_types := assocSet scope none w.scope_types }, []⟩

/-- The bare marker `flush` prints: `if timestamp is not None and timestamp >
self._prev_timestamp`, one `#<int>` line. -/
def flushMarker (prev : Nat) : Option Nat → List String
  | some t => if t > prev then ["#" ++ toString t] else []
  | none => []

/-- `VCDWriter.flush`: fails when closed; forces the header out when still
registering; emits a bare marker for a supplied timestamp beyond the cursor
(without advancing the cursor). -/
def flush (w : VCDWriter) (timestamp : Option Nat) : OpResult :=
  if w.closed then
    ⟨some (.phaseError "Cannot flush() after close()"), w, []⟩
  else
    let fr := if w.registering then finalize_registration w else (w, [])
    ⟨none, fr.1, fr.2 ++ flushMarker fr.1.prev_timestamp timestamp⟩

/-- `VCDWriter.close`: flush once, set the closed flag; later calls do
nothing. -/
def close (w : VCDWriter) (timestamp : Option Nat) : OpResult :=
  if w.closed then
    ⟨none, w, []⟩
  else
    let fr := flush w timestamp
    match fr.err with
    | some e => ⟨some e, fr.st, fr.out⟩
    | none => ⟨none, { fr.st with closed := true }, fr.out⟩

/-! ### Operation traces -/

/-- One client call on the writer. -/
inductive Op where
  | opChange (var : Variable) (timestamp : Nat) (value : Value)
  | opRegister (scope : List String) (name var_type : String) (size : Nat)
      (init : Value) (identArg : Option String)
  | opDumpOff (timestamp : Nat)
  | opDumpOn (timestamp : Nat)
  | opFlush (timestamp : Option Nat)
  | opClose (timestamp : Option Nat)
  | opSetScopeType (scope : List String) (scope_type : Option String)
deriving DecidableEq, Repr

/-- Dispatch one call. -/
def applyOp (w : VCDWriter) : Op → OpResult
  | .opChange var ts v => change w var ts v
  | .opRegister scope name vt size init identArg =>
    let r := register_var w scope name vt size init identArg
    ⟨r.err, r.st, r.out⟩
  | .opDumpOff ts => dump_off w ts
  | .opDumpOn ts => dump_on w ts
  | .opFlush ts => flush w ts
  | .opClose ts => close w ts
  | .opSetScopeType scope t => set_scope_type w scope t

/-- Run a call sequence, concatenating all emitted lines; a raised exception
is caught by the client, who continues with the calls that follow. -/
def runOps (w : VCDWriter) : List Op → VCDWriter × List String
  | [] => (w, [])
  | op :: rest =>
    let r := applyOp w op
    let rest' := runOps r.st rest
    (rest'.1, r.out ++ rest'.2)

/-! ### Two's-complement decoding (for the round-trip claims) -/

/-- Interpret `u` (an unsigned reading of an `n`-bit pattern) as an `n`-bit
two's-complement number. -/
def twosDecode (n : Nat) (u : Nat) : Int :=
  if 2 ^ (n - 1) ≤ u then (u : Int) - 2 ^ n else (u : Int)

/-! ### Concrete writers used by witnesses and counterexamples -/

/-- A freshly constructed writer. -/
def sampleWriter : VCDWriter := VCDWriter.init "1 us" "today" "" "" "module" "."

/-- A writer taken live (one scalar registered with initial value `0`, one
live change at time 5) and then closed. -/
def closedWriter : VCDWriter :=
  (runOps sampleWriter
    [ .opRegister ["top"] "sig" "wire" 1 (.vStr "0") none,
      .opChange ⟨.scalar, "v0", "wire", 1⟩ 5 (.vStr "1"),
      .opClose none ]).1

/-- A writer in the Live phase with dumping on and one cached value. -/
def liveWriter : VCDWriter :=
  (runOps sampleWriter
    [ .opRegister ["top"] "sig" "wire" 1 (.vStr "0") none,
      .opChange ⟨.scalar, "v0", "wire", 1⟩ 5 (.vStr "1") ]).1

/-! ### Claim C7 -/

/-- C7 (counterexample): the claim says letter states are case-folded to
lowercase, but the scalar encoder returns the state character verbatim:
`'X'` encodes as `X` glued to the ident, not `x`. -/
theorem c7_counterexample :
    ScalarVariable.format_value "v0" (.vStr "X") = .ok ("X" ++ "v0") ∧
    ("X" ++ "v0" : String) ≠ ("x" ++ "v0" : String) := by
  exact ⟨rfl, by decide⟩

/-- C7 (amended): for every valid scalar input in
{0, 1, 'x', 'z', 'X', 'Z', True, False, None} the encoder returns exactly one
state character immediately followed by the ident with no separator — the
character is kept verbatim (no case folding); `None` encodes as `z`, truthy
as `1`, falsy as `0`. -/
theorem c7_scalar_format_amended (ident : String) :
    ScalarVariable.format_value ident (.vInt 0) = .ok ("0" ++ ident) ∧
    ScalarVariable.format_value ident (.vInt 1) = .ok ("1" ++ ident) ∧
    ScalarVariable.format_value ident (.vStr "x") = .ok ("x" ++ ident) ∧
    ScalarVariable.format_value ident (.vStr "z") = .ok ("z" ++ ident) ∧
    ScalarVariable.format_value ident (.vStr "X") = .ok ("X" ++ ident) ∧
    ScalarVariable.format_value ident (.vStr "Z") = .ok ("Z" ++ ident) ∧
    ScalarVariable.format_value ident (.vStr "0") = .ok ("0" ++ ident) ∧
    ScalarVariable.format_value ident (.vStr "1") = .ok ("1" ++ ident) ∧
    ScalarVariable.format_value ident (.vBool true) = .ok ("1" ++ ident) ∧
    ScalarVariable.format_value ident (.vBool false) = .ok ("0" ++ ident) ∧
    ScalarVariable.format_value ident .vNone = .ok ("z" ++ ident) := by
  refine ⟨rfl, rfl, ?_, ?_, ?_, ?_, ?_, ?_, rfl, rfl, rfl⟩ <;> rfl

/-! ### Claim C10 -/

/-- Whenever `register_var` returns a handle, it is exactly the one built by
the size-before-kind selection `mkVariable`. -/
theorem register_var_handle (w : VCDWriter) (scope : List String)
    (name var_type : String) (size : Nat) (init : Value)
    (identArg : Option String) :
    (register_var w scope name var_type size init identArg).var = none ∨
    (register_var w scope name var_type size init identArg).var =
      some (mkVariable (identArg.getD ("v" ++ toString w.next_var_id))
        var_type size) := by
  unfold register_var
  dsimp only
  repeat' split
  all_goals first | exact Or.inl rfl | exact Or.inr rfl

/-- C10: `register_var` picks the encoder by bit size before variable kind:
the returned handle is exactly `mkVariable ident var_type size`; a 1-bit
variable gets the scalar encoder even for `var_type='real'`, only a `real`
of size ≠ 1 gets the real encoder, and values of a 1-bit real are formatted
by scalar truthiness (`'0'`/`'1'`), not as `r…` reals. -/
theorem c10_encoder_selection (w : VCDWriter) (scope : List String)
    (name var_type : String) (size : Nat) (init : Value)
    (identArg : Option String) (ident : String) (i f : Int) :
    (∀ v, (register_var w scope name var_type size init identArg).var = some v →
      v = mkVariable (identArg.getD ("v" ++ toString w.next_var_id)) var_type size) ∧
    (mkVariable ident "real" 1).kind = .scalar ∧
    (size ≠ 1 → (mkVariable ident "real" size).kind = .real) ∧
    (size ≠ 1 → var_type ≠ "real" → (mkVariable ident var_type size).kind = .vector) ∧
    Variable.format_value (mkVariable ident "real" 1) (.vInt i) =
      .ok ((if i ≠ 0 then "1" else "0") ++ ident) ∧
    Variable.format_value (mkVariable ident "real" 1) (.vFloat f) =
      .ok ((if f ≠ 0 then "1" else "0") ++ ident) := by
  refine ⟨?_, rfl, ?_, ?_, rfl, rfl⟩
  · intro v hv
    rcases register_var_handle w scope name var_type size init identArg with h | h
    · rw [h] at hv; exact absurd hv (by simp)
    · rw [h] at hv; exact (Option.some.injEq _ _).mp hv.symm
  · intro hsz
    unfold mkVariable
    simp [hsz]
  · intro hsz hvt
    unfold mkVariable
    simp [hsz, hvt]

/-- C10 (witness): a 1-bit `real` really is scalar-encoded (value `3`
formats as `1v0`), and an 8-bit `real` gets the real encoder. -/
theorem c10_witness :
    (mkVariable "v0" "real" 8).kind = .real ∧
    (mkVariable "v0" "real" 1).kind = .scalar ∧
    Variable.format_value (mkVariable "v0" "real" 1) (.vInt 3) =
      .ok ("1" ++ "v0") := by
  have h := c10_encoder_selection sampleWriter ["top"] "r" "real" 8 .vNone none
    "v0" 3 0
  exact ⟨h.2.2.1 (by decide), h.2.1, h.2.2.2.2.1⟩

/-! ### Claim C9 -/

/-- C9: `register_int` and `register_event` forward all parameters to
`register_var` with their fixed var_type; but `register_real` drops the
caller-supplied ident (it passes `ident=None`), so with `ident='myid'` it
registers `v0` where a direct `register_var` call registers `myid` —
the wrappers are not all pure parameter forwarding. -/
theorem c9_wrapper_forwarding :
    (∀ w scope name size init identArg,
      register_int w scope name size init identArg =
        register_var w scope name "integer" size init identArg) ∧
    (∀ w scope name size init identArg,
      register_event w scope name size init identArg =
        register_var w scope name "event" size init identArg) ∧
    ((register_real sampleWriter ["top"] "r" 64 (.vFloat 0) (some "myid")).var =
      some ⟨.real, "v0", "real", 64⟩) ∧
    ((register_var sampleWriter ["top"] "r" "real" 64 (.vFloat 0) (some "myid")).var =
      some ⟨.real, "myid", "real", 64⟩) ∧
    register_real sampleWriter ["top"] "r" 64 (.vFloat 0) (some "myid") ≠
      register_var sampleWriter ["top"] "r" "real" 64 (.vFloat 0) (some "myid") := by
  refine ⟨fun _ _ _ _ _ _ => rfl, fun _ _ _ _ _ _ => rfl, by decide, by decide, by decide⟩

/-! ### Claim C2 -/

/-- C2 (counterexample): `n = 1`, `v = 1` lies in the accepted range
`-(2^(n-1)) ≤ v < 2^n`, the encoder succeeds with digit string `1`, but
decoding `1` as width-1 two's complement gives `-1 ≠ 1`: the round trip of
the claim fails on the upper half of the accepted range. -/
theorem c2_counterexample :
    (-(2 ^ (1 - 1) : Int) ≤ 1 ∧ (1 : Int) < 2 ^ 1) ∧
    VectorVariable.format_value "v0" 1 (.vInt 1) = .ok ("b" ++ "1" ++ " " ++ "v0") ∧
    twosDecode 1 (strBinValue "1") = -1 ∧
    twosDecode 1 (strBinValue "1") ≠ 1 := by
  refine ⟨by decide, rfl, by decide, by decide⟩

/-- C2 (amended): for every vector of bit size `n ≥ 1` and integer `v` with
`-(2^(n-1)) ≤ v < 2^n` the encoder succeeds, and decoding the emitted binary
digit string as width-`n` two's complement reproduces `v` modulo `2^n`; the
decode equals `v` exactly if and only if additionally `v < 2^(n-1)` (negative
values are converted to their unsigned two's-complement pattern first). -/
theorem c2_vector_roundtrip (ident : String) (n : Nat) (v : Int)
    (hn : 0 < n) (h1 : -(2 ^ (n - 1) : Int) ≤ v) (h2 : v < 2 ^ n) :
    ∃ digits : String,
      VectorVariable.format_value ident n (.vInt v) =
        .ok ("b" ++ digits ++ " " ++ ident) ∧
      (2 ^ n : Int) ∣ (twosDecode n (strBinValue digits) - v) ∧
      (v < 2 ^ (n - 1) → twosDecode n (strBinValue digits) = v) ∧
      (2 ^ (n - 1) ≤ v → twosDecode n (strBinValue digits) = v - 2 ^ n) := by
  have hpow : (2 : Int) ^ n = 2 ^ (n - 1) * 2 := by
    rw [← pow_succ]
    congr 1
    omega
  have hhalf : (2 : Int) ^ n / 2 = 2 ^ (n - 1) := by
    rw [hpow]
    exact Int.mul_ediv_cancel _ (by norm_num)
  have hpos : (0 : Int) < 2 ^ (n - 1) := by positivity
  have hguard : ¬ (-v > (2 ^ n : Int) / 2 ∨ v ≥ (2 ^ n : Int)) := by
    rw [hhalf]
    push_neg
    exact ⟨by omega, h2⟩
  set adjusted : Int := if v < 0 then v + 2 ^ n else v with hadj
  have hadj_nonneg : 0 ≤ adjusted := by
    rw [hadj]
    split <;> omega
  have hout : VectorVariable.format_value ident n (.vInt v) =
      .ok ("b" ++ pythonBin adjusted.toNat ++ " " ++ ident) := by
    show vectorIntFormat ident n v = _
    unfold vectorIntFormat
    rw [if_neg hguard]
  have hcast : (adjusted.toNat : Int) = adjusted := Int.toNat_of_nonneg hadj_nonneg
  have hc2 : ((2 ^ (n - 1) : Nat) : Int) = (2 : Int) ^ (n - 1) := by push_cast; rfl
  have hiff : (2 ^ (n - 1) ≤ adjusted.toNat) ↔ ((2 : Int) ^ (n - 1) ≤ adjusted) := by
    omega
  refine ⟨pythonBin adjusted.toNat, hout, ?_, ?_, ?_⟩ <;> rw [strBinValue_pythonBin]
  · by_cases hA : (2 : Int) ^ (n - 1) ≤ adjusted
    · unfold twosDecode
      rw [if_pos (hiff.mpr hA), hcast]
      by_cases hv : v < 0
      · rw [hadj, if_pos hv]; exact ⟨0, by ring⟩
      · rw [hadj, if_neg hv]; exact ⟨-1, by ring⟩
    · unfold twosDecode
      rw [if_neg (fun hc => hA (hiff.mp hc)), hcast]
      by_cases hv : v < 0
      · rw [hadj, if_pos hv]; exact ⟨1, by ring⟩
      · rw [hadj, if_neg hv]; exact ⟨0, by ring⟩
  · intro hlt
    have hA : ((2 : Int) ^ (n - 1) ≤ adjusted) ↔ v < 0 := by
      constructor
      · intro hc
        by_contra hv
        rw [hadj, if_neg hv] at hc
        omega
      · intro hv
        rw [hadj, if_pos hv]
        omega
    by_cases hv : v < 0
    · unfold twosDecode
      rw [if_pos (hiff.mpr (hA.mpr hv)), hcast, hadj, if_pos hv]
      ring
    · unfold twosDecode
      rw [if_neg (fun hc => hv (hA.mp (hiff.mp hc))), hcast, hadj, if_neg hv]
  · intro hge
    have hv : ¬ v < 0 := by omega
    have hA : (2 : Int) ^ (n - 1) ≤ adjusted := by
      rw [hadj, if_neg hv]; exact hge
    unfold twosDecode
    rw [if_pos (hiff.mpr hA), hcast, hadj, if_neg hv]

/-- C2 (witness): width 4, value `-3` encodes to digits `1101`, which decodes
back to `-3` exactly. -/
theorem c2_witness :
    ∃ digits : String,
      VectorVariable.format_value "v0" 4 (.vInt (-3)) =
        .ok ("b" ++ digits ++ " " ++ "v0") ∧
      (2 ^ 4 : Int) ∣ (twosDecode 4 (strBinValue digits) - (-3)) ∧
      ((-3 : Int) < 2 ^ (4 - 1) → twosDecode 4 (strBinValue digits) = -3) ∧
      ((2 ^ (4 - 1) : Int) ≤ -3 → twosDecode 4 (strBinValue digits) = -3 - 2 ^ 4) :=
  c2_vector_roundtrip "v0" 4 (-3) (by decide) (by decide) (by decide)

/-! ### Claim C8 -/

/-- C8: `set_scope_type(path, None)` is accepted, but instead of meaning
"use default" it stores `None`, which `dict.get` then returns in place of
the default: the header emits the literal line `$scope None a $end` rather
than `$scope module a $end` — invalid VCD output, contradicting the writer's
purpose, while the validation deliberately lets `None` through.  A tag
outside the fixed set does fail with `ValueError` and changes nothing. -/
theorem c8_scope_type_none_bug :
    ((set_scope_type sampleWriter ["a"] none).err = none) ∧
    ((runOps sampleWriter
        [ .opSetScopeType ["a"] none,
          .opRegister ["a"] "x1" "wire" 1 .vNone none,
          .opFlush none ]).2.contains "$scope None a $end" = true) ∧
    ((runOps sampleWriter
        [ .opSetScopeType ["a"] none,
          .opRegister ["a"] "x1" "wire" 1 .vNone none,
          .opFlush none ]).2.contains "$scope module a $end" = false) ∧
    ((runOps sampleWriter
        [ .opRegister ["a"] "x1" "wire" 1 .vNone none,
          .opFlush none ]).2.contains "$scope module a $end" = true) ∧
    (∀ w scope t, ¬ SCOPE_TYPES.contains t = true →
      set_scope_type w scope (some t) =
        ⟨some (.valueError ("Invalid scope_type " ++ t)), w, []⟩) := by
  refine ⟨by decide, by decide, by decide, by decide, ?_⟩
  intro w scope t ht
  unfold set_scope_type
  dsimp only
  rw [if_pos ht]

/-- C8 (witness): an invalid tag is rejected with `ValueError` and the
writer is left untouched. -/
theorem c8_witness :
    set_scope_type sampleWriter ["a"] (some "bogus") =
      ⟨some (.valueError ("Invalid scope_type " ++ "bogus")), sampleWriter, []⟩ :=
  c8_scope_type_none_bug.2.2.2.2 sampleWriter ["a"] "bogus" (by decide)

/-! ### Claim C6 -/

/-- C6 (counterexample): `register_var` with an invalid initial value on a
fresh scope raises `InvalidValue` and writes nothing, but it does mutate
state: the per-scope variable-name index has gained an (empty) entry for the
new scope, so the writer is not "exactly as before the call". -/
theorem c6_counterexample :
    (register_var sampleWriter ["s"] "n" "integer" 8 (.vInt 256) none).err =
      some (.valueError "Value (256) not representable in 8 bits") ∧
    (register_var sampleWriter ["s"] "n" "integer" 8 (.vInt 256) none).out = [] ∧
    (register_var sampleWriter ["s"] "n" "integer" 8 (.vInt 256) none).st ≠
      sampleWriter ∧
    (register_var sampleWriter ["s"] "n" "integer" 8 (.vInt 256) none).st =
      { sampleWriter with scope_var_names := [(["s"], [])] } := by
  refine ⟨by decide, by decide, by decide, by decide⟩

/-- C6 (amended): a `change` rejected with `InvalidValue` is fully atomic
(identical state, nothing written); a `register_var` rejected for its initial
value writes nothing and leaves every component unchanged — registry lines,
type map, cache, cursor, ident counter, phase flags — except that the
per-scope variable-name index may gain an empty entry for a previously
unseen scope path, which no subsequent behavior distinguishes. -/
theorem c6_rejection_atomicity (w : VCDWriter) (var : Variable) (ts : Nat)
    (value : Value) (scope : List String) (name var_type : String)
    (size : Nat) (init : Value) (identArg : Option String) (e : VCDError) :
    (¬ ts < w.prev_timestamp → w.closed = false →
      var.format_value value = .error e →
      change w var ts value = ⟨some e, w, []⟩) ∧
    (w.closed = false → w.registering = true → w.prev_timestamp = 0 →
      VAR_TYPES.contains var_type = true →
      ((assocGet? scope w.scope_var_names).getD []).contains name = false →
      (mkVariable (identArg.getD ("v" ++ toString w.next_var_id)) var_type
          size).format_value
        (if init = Value.vNone then
          (if var_type = "real" then Value.vFloat 0 else Value.vStr "x")
         else init) = .error e →
      register_var w scope name var_type size init identArg =
        ⟨some e,
         { w with scope_var_names :=
            (assocSetdefault scope ([] : List String) w.scope_var_names).2 },
         [], none⟩) := by
  constructor
  · intro hts hcl hfmt
    unfold change
    rw [if_neg hts, if_neg (by simp [hcl]), hfmt]
  · intro hcl hreg hprev hvt hdup hfmt
    have hsd : (assocSetdefault scope ([] : List String) w.scope_var_names).1 =
        (assocGet? scope w.scope_var_names).getD [] := by
      unfold assocSetdefault
      cases assocGet? scope w.scope_var_names <;> rfl
    unfold register_var
    rw [if_neg (by simp [hcl]), if_neg (by simp [hreg]),
      if_neg (fun hc => hc hvt)]
    dsimp only
    rw [if_neg (by rw [hsd]; simpa using hdup)]
    have hchange :
        change { w with scope_var_names :=
            (assocSetdefault scope ([] : List String) w.scope_var_names).2 }
          (mkVariable (identArg.getD ("v" ++ toString w.next_var_id)) var_type size) 0
          (if init = Value.vNone then
            (if var_type = "real" then Value.vFloat 0 else Value.vStr "x")
           else init) =
        ⟨some e,
         { w with scope_var_names :=
            (assocSetdefault scope ([] : List String) w.scope_var_names).2 },
         []⟩ := by
      unfold change
      rw [if_neg (by simp [hprev]), if_neg (by simp [hcl]), hfmt]
    rw [hchange]

/-- C6 (witness): both halves at the concrete failing input
`init = 256` for an 8-bit integer variable. -/
theorem c6_witness :
    change sampleWriter ⟨.vector, "v9", "integer", 8⟩ 0 (.vInt 256) =
      ⟨some (.valueError "Value (256) not representable in 8 bits"),
       sampleWriter, []⟩ ∧
    register_var sampleWriter ["s"] "n" "integer" 8 (.vInt 256) none =
      ⟨some (.valueError "Value (256) not representable in 8 bits"),
       { sampleWriter with scope_var_names :=
          (assocSetdefault ["s"] ([] : List String) sampleWriter.scope_var_names).2 },
       [], none⟩ := by
  have h := c6_rejection_atomicity sampleWriter ⟨.vector, "v9", "integer", 8⟩ 0
    (.vInt 256) ["s"] "n" "integer" 8 (.vInt 256) none
    (.valueError "Value (256) not representable in 8 bits")
  exact ⟨h.1 (by decide) (by decide) rfl,
         h.2 (by decide) (by decide) (by decide) (by decide) (by decide) rfl⟩

/-! ### Claim C3 -/

/-- C3 (counterexample): after `close()`, `dump_off` and `dump_on` neither
raise `PhaseError` nor stay silent — `dump_off` still writes a `$dumpoff`
block to the output and `dump_on` a `$dumpon` block (they never check the
closed flag). -/
theorem c3_counterexample :
    closedWriter.closed = true ∧
    (dump_off closedWriter 6).err = none ∧
    (dump_off closedWriter 6).out = ["#6", "$dumpoff", "x" ++ "v0", "$end"] ∧
    (dump_on (dump_off closedWriter 6).st 7).err = none ∧
    (dump_on (dump_off closedWriter 6).st 7).out =
      ["#7", "$dumpon", "0v0", "$end"] := by
  refine ⟨by decide, by decide, by decide, by decide, by decide⟩

/-- C3 (amended): `close` is idempotent — the first call performs `flush` and
sets the Closed phase, a repeated `close` is a no-op; after Closed,
`register_var`, `change` and `flush` fail with `PhaseError`, write nothing
and mutate nothing.  (`dump_off`/`dump_on` are the exception: they do not
check the closed flag.) -/
theorem c3_close_idempotent (w : VCDWriter) (ts ts2 : Option Nat)
    (var : Variable) (value : Value) (t : Nat) (scope : List String)
    (name var_type : String) (size : Nat) (init : Value)
    (identArg : Option String) :
    (w.closed = false →
      close w ts =
        ⟨none, { (flush w ts).st with closed := true }, (flush w ts).out⟩) ∧
    (close (close w ts).st ts2 = ⟨none, (close w ts).st, []⟩) ∧
    (w.closed = true →
      (register_var w scope name var_type size init identArg =
        ⟨some (.phaseError "Cannot register after close()."), w, [], none⟩) ∧
      ((change w var t value).st = w ∧ (change w var t value).out = [] ∧
        ∃ m, (change w var t value).err = some (.phaseError m)) ∧
      (flush w ts = ⟨some (.phaseError "Cannot flush() after close()"), w, []⟩)) := by
  have hflush_err : ∀ ts', w.closed = false → (flush w ts').err = none := by
    intro ts' hcl
    unfold flush
    rw [if_neg (by simp [hcl])]
  refine ⟨?_, ?_, ?_⟩
  · intro hcl
    unfold close
    rw [if_neg (by simp [hcl])]
    have := hflush_err ts hcl
    rcases hfr : flush w ts with ⟨err, st, out⟩
    rw [hfr] at this
    simp only at this
    subst this
    rfl
  · have hclosed : (close w ts).st.closed = true := by
      unfold close
      split
      · rename_i hcl
        exact hcl
      · rename_i hcl
        have hwf : w.closed = false := by
          cases hc : w.closed
          · rfl
          · exact absurd hc hcl
        have herr := hflush_err ts hwf
        rcases hfr : flush w ts with ⟨err, st, out⟩
        rw [hfr] at herr
        simp only at herr
        subst herr
        rfl
    revert hclosed
    generalize (close w ts).st = w2
    intro hclosed
    unfold close
    rw [if_pos hclosed]
  · intro hcl
    have hch : (change w var t value).st = w ∧ (change w var t value).out = [] ∧
        ∃ m, (change w var t value).err = some (.phaseError m) := by
      unfold change
      by_cases hlt : t < w.prev_timestamp
      · rw [if_pos hlt]
        exact ⟨rfl, rfl, "Out of order value change", rfl⟩
      · rw [if_neg hlt, if_pos hcl]
        exact ⟨rfl, rfl, "Cannot change value after close()", rfl⟩
    refine ⟨?_, hch, ?_⟩
    · unfold register_var
      rw [if_pos hcl]
    · unfold flush
      rw [if_pos hcl]

/-- C3 (witness): first close flushes and closes on a fresh writer; on the
closed writer, registering fails with `PhaseError` untouched, and a second
close is a no-op. -/
theorem c3_witness :
    (close sampleWriter none =
      ⟨none, { (flush sampleWriter none).st with closed := true },
       (flush sampleWriter none).out⟩) ∧
    (close (close sampleWriter none).st (some 9) =
      ⟨none, (close sampleWriter none).st, []⟩) ∧
    (register_var closedWriter ["s"] "n" "wire" 1 .vNone none =
      ⟨some (.phaseError "Cannot register after close()."), closedWriter, [],
       none⟩) := by
  have h1 := c3_close_idempotent sampleWriter none (some 9)
    ⟨.scalar, "v0", "wire", 1⟩ .vNone 1 ["s"] "n" "wire" 1 .vNone none
  have h2 := c3_close_idempotent closedWriter none none
    ⟨.scalar, "v0", "wire", 1⟩ .vNone 1 ["s"] "n" "wire" 1 .vNone none
  exact ⟨h1.1 (by decide), h1.2.1, (h2.2.2 (by decide)).1⟩

/-! ### Claim C1 -/

/-- C1 (counterexample): register a scalar with initial value `0`, change it
live to `1` at time 5, suspend at 7, resume at 9.  The full stream shows the
last value the variable held before suspension was `1` (line `1v0` after
`#5`), but the `$dumpon` block emitted on resume contains the stale cached
`0v0` — live changes are not written back to the cache, so the resume does
not reproduce the current value. -/
theorem c1_counterexample :
    (runOps sampleWriter
      [ .opRegister ["top"] "sig" "wire" 1 (.vStr "0") none,
        .opChange ⟨.scalar, "v0", "wire", 1⟩ 5 (.vStr "1"),
        .opDumpOff 7,
        .opDumpOn 9 ]).2 =
      ["$date today $end", "$timescale 1 us $end", "$scope module top $end",
       "$var wire 1 v0 sig $end", "$upscope $end", "$enddefinitions $end",
       "$dumpvars", "0v0", "$end", "#5", "1v0", "#7", "$dumpoff", "xv0", "$end",
       "#9", "$dumpon", "0v0", "$end"] ∧
    ScalarVariable.format_value "v0" (.vStr "1") = .ok "1v0" ∧
    ("0v0" : String) ≠ "1v0" := by
  refine ⟨by decide, rfl, by decide⟩

/-- C1 (amended): for a live writer with dumping on and a non-empty cache,
`dump_off` then `dump_on` emits a `$dumpon` block holding, verbatim, each
variable's cached value — the last value set at timestamp 0 or while dumping
was off — and leaves the cache untouched.  Values changed while dumping was
on are not in the cache, so the block reproduces the pre-suspension value
only for variables with no such live change. -/
theorem c1_suspend_resume (w : VCDWriter) (t1 t2 : Nat)
    (hreg : w.registering = false) (hdump : w.dumping = true)
    (hvals : w.ident_values ≠ []) :
    (dump_off w t1).out = dumpOffLines t1 w.ident_values ∧
    (dump_on (dump_off w t1).st t2).out =
      ("#" ++ toString t2) :: "$dumpon" ::
        (w.ident_values.map Prod.snd ++ ["$end"]) ∧
    (dump_on (dump_off w t1).st t2).st.ident_values = w.ident_values ∧
    (dump_on (dump_off w t1).st t2).st.dumping = true := by
  have hoff : dump_off w t1 =
      ⟨none, { w with dumping := false }, dumpOffLines t1 w.ident_values⟩ := by
    unfold dump_off
    rw [if_pos ⟨by simp [hdump], by simp [hreg], hvals⟩]
  have hon : (dump_on { w with dumping := false } t2).out =
      ("#" ++ toString t2) :: "$dumpon" ::
        (w.ident_values.map Prod.snd ++ ["$end"]) := by
    unfold dump_on
    rw [if_pos ⟨by simp, by simp [hreg], hvals⟩]
    rcases hv : w.ident_values with _ | ⟨p, rest⟩
    · exact absurd hv hvals
    · simp [dumpValuesLines]
  refine ⟨by rw [hoff], ?_, ?_, ?_⟩
  · rw [hoff]
    exact hon
  · rw [hoff]
    unfold dump_on
    split <;> rfl
  · rw [hoff]
    unfold dump_on
    split <;> rfl

/-- C1 (witness): the amended statement at the concrete live writer. -/
theorem c1_witness :
    (dump_off liveWriter 7).out = dumpOffLines 7 liveWriter.ident_values ∧
    (dump_on (dump_off liveWriter 7).st 9).out =
      ("#" ++ toString 9) :: "$dumpon" ::
        (liveWriter.ident_values.map Prod.snd ++ ["$end"]) ∧
    (dump_on (dump_off liveWriter 7).st 9).st.ident_values =
      liveWriter.ident_values ∧
    (dump_on (dump_off liveWriter 7).st 9).st.dumping = true :=
  c1_suspend_resume liveWriter 7 9 (by decide) (by decide) (by decide)

/-! ### Claim C4 -/

theorem pathLt_irrefl (a : List String) : pathLt a a = false := by
  cases h : pathLt a a
  · rfl
  · have h2 := pathLt_asymm h
    rw [h] at h2
    exact h2

theorem varPairLe_keys_eq {p q : List String × List String}
    (h1 : varPairLe p q = true) (h2 : varPairLe q p = true) : p.1 = q.1 := by
  have h1' : pathLt q.1 p.1 = false := by simpa [varPairLe] using h1
  have h2' : pathLt p.1 q.1 = false := by simpa [varPairLe] using h2
  rcases pathLt_trichotomy p.1 q.1 with h | h | h
  · rw [h] at h2'; exact absurd h2' (by simp)
  · exact h
  · rw [h] at h1'; exact absurd h1' (by simp)

theorem varPairLe_total (p q : List String × List String) :
    varPairLe p q = true ∨ varPairLe q p = true := by
  unfold varPairLe
  rcases pathLt_trichotomy q.1 p.1 with h | h | h
  · right; rw [pathLt_asymm h]; rfl
  · left; rw [h, pathLt_irrefl]; rfl
  · left; rw [pathLt_asymm h]; rfl

theorem varPairLe_trans (p q r : List String × List String)
    (h1 : varPairLe p q = true) (h2 : varPairLe q r = true) :
    varPairLe p r = true := by
  have h1' : pathLt q.1 p.1 = false := by simpa [varPairLe] using h1
  have h2' : pathLt r.1 q.1 = false := by simpa [varPairLe] using h2
  unfold varPairLe
  cases h : pathLt r.1 p.1
  · rfl
  · exfalso
    rcases pathLt_trichotomy p.1 q.1 with hpq | hpq | hpq
    · have := pathLt_trans h hpq
      rw [this] at h2'
      exact absurd h2' (by simp)
    · rw [hpq] at h
      rw [h] at h2'
      exact absurd h2' (by simp)
    · rw [hpq] at h1'
      exact absurd h1' (by simp)

/-- The C4 scope registry: paths `a`, `a.b`, `a.c`, `b` with their staged
`$var` lines. -/
def c4Base (va vb vc vd : List String) : List (List String × List String) :=
  [(["a"], va), (["a", "b"], vb), (["a", "c"], vc), (["b"], vd)]

/-- Sorting recovers the lexicographic order of the four scope paths from any
insertion order. -/
theorem c4_sort (va vb vc vd : List String)
    (l : List (List String × List String))
    (hperm : l.Perm (c4Base va vb vc vd)) :
    sortBy varPairLe l = c4Base va vb vc vd := by
  have hanti : ∀ a b : List String × List String,
      (varPairLe a b = true ∧ a.1 ≠ b.1) →
      (varPairLe b a = true ∧ b.1 ≠ a.1) → a = b :=
    fun a b h1 h2 => absurd (varPairLe_keys_eq h1.1 h2.1) h1.2
  have hperm2 : (sortBy varPairLe l).Perm (c4Base va vb vc vd) :=
    (sortBy_perm varPairLe l).trans hperm
  have hsorted : (sortBy varPairLe l).Pairwise
      (fun a b => varPairLe a b = true) :=
    sorted_sortBy varPairLe varPairLe_total varPairLe_trans l
  have hkeys : ((c4Base va vb vc vd).map Prod.fst).Nodup := by
    show ([["a"], ["a", "b"], ["a", "c"], ["b"]] : List (List String)).Nodup
    decide
  have hnodup_l : ((sortBy varPairLe l).map Prod.fst).Nodup :=
    ((hperm2.map Prod.fst).symm).nodup hkeys
  have hne : (sortBy varPairLe l).Pairwise (fun a b => a.1 ≠ b.1) :=
    List.pairwise_map.mp hnodup_l
  have hs1 : (sortBy varPairLe l).Pairwise
      (fun a b => varPairLe a b = true ∧ a.1 ≠ b.1) := hsorted.and hne
  have hs2 : (c4Base va vb vc vd).Pairwise
      (fun a b => varPairLe a b = true ∧ a.1 ≠ b.1) := by
    unfold c4Base
    refine List.Pairwise.cons ?_ (List.Pairwise.cons ?_
      (List.Pairwise.cons ?_ (List.pairwise_singleton _ _)))
    · intro b hb
      rcases List.mem_cons.mp hb with h | hb2
      · subst h; exact ⟨rfl, by simp⟩
      rcases List.mem_cons.mp hb2 with h | hb3
      · subst h; exact ⟨rfl, by simp⟩
      rcases List.mem_cons.mp hb3 with h | hb4
      · subst h; exact ⟨rfl, by simp⟩
      · exact absurd hb4 (by simp)
    · intro b hb
      rcases List.mem_cons.mp hb with h | hb2
      · subst h; exact ⟨rfl, by simp⟩
      rcases List.mem_cons.mp hb2 with h | hb3
      · subst h; exact ⟨rfl, by simp⟩
      · exact absurd hb3 (by simp)
    · intro b hb
      rcases List.mem_cons.mp hb with h | hb2
      · subst h; exact ⟨rfl, by simp⟩
      · exact absurd hb2 (by simp)
  haveI : IsAntisymm (List String × List String)
      (fun a b => varPairLe a b = true ∧ a.1 ≠ b.1) := ⟨hanti⟩
  exact List.eq_of_perm_of_sorted hperm2 hs1 hs2

/-- C4: for scope paths `[a], [a,b], [a,c], [b]` staged in any insertion
order, the header's scope section visits them in lexicographic order and is
exactly: open `a`, vars of `a`, open `b` under `a`, its vars, one close,
open `c` under `a`, its vars, one close, close `a`, open top-level `b`, its
vars, one close — one `$scope`/`$upscope` line per prefix-diff edge — then
`$enddefinitions $end`. -/
theorem c4_header_scope_order (va vb vc vd : List String)
    (l : List (List String × List String))
    (hperm : l.Perm (c4Base va vb vc vd)) :
    scopeSection [] "module" [] (sortBy varPairLe l) =
      ["$scope module a $end"] ++ (va ++
        (["$scope module b $end"] ++ (vb ++
          (["$upscope $end", "$scope module c $end"] ++ (vc ++
            (["$upscope $end", "$upscope $end", "$scope module b $end"] ++
              (vd ++ ["$upscope $end", "$enddefinitions $end"]))))))) := by
  rw [c4_sort va vb vc vd l hperm]
  rfl

/-- C4 (witness): a concrete jumbled insertion order of the four scopes with
one `$var` line each. -/
theorem c4_witness :
    scopeSection [] "module" []
      (sortBy varPairLe
        [(["b"], ["$var wire 1 v3 w $end"]),
         (["a", "c"], ["$var wire 1 v2 z $end"]),
         (["a"], ["$var wire 1 v0 x $end"]),
         (["a", "b"], ["$var wire 1 v1 y $end"])]) =
      ["$scope module a $end"] ++ (["$var wire 1 v0 x $end"] ++
        (["$scope module b $end"] ++ (["$var wire 1 v1 y $end"] ++
          (["$upscope $end", "$scope module c $end"] ++
            (["$var wire 1 v2 z $end"] ++
              (["$upscope $end", "$upscope $end", "$scope module b $end"] ++
                (["$var wire 1 v3 w $end"] ++
                  ["$upscope $end", "$enddefinitions $end"]))))))) :=
  c4_header_scope_order ["$var wire 1 v0 x $end"] ["$var wire 1 v1 y $end"]
    ["$var wire 1 v2 z $end"] ["$var wire 1 v3 w $end"] _ (by decide)

/-! ### Claim C5 — timestamp markers across a run -/

/-- A timestamp marker line. -/
def markerStr (t : Nat) : String := "#" ++ toString t

/-- Whether an output line is a timestamp marker: it starts with `#`
(no other line the writer produces starts with `#`). -/
def isMarker (s : String) : Bool :=
  match s.data with
  | '#' :: _ => true
  | _ => false

/-- The timestamp the client passed to a call, when there is one. -/
def Op.ts? : Op → Option Nat
  | .opChange _ t _ => some t
  | .opRegister _ _ _ _ _ _ => none
  | .opDumpOff t => some t
  | .opDumpOn t => some t
  | .opFlush t => t
  | .opClose t => t
  | .opSetScopeType _ _ => none

/-- The timestamps supplied across a call sequence, in order. -/
def tsListOf (ops : List Op) : List Nat := ops.filterMap Op.ts?

theorem isMarker_markerStr (t : Nat) : isMarker (markerStr t) = true := rfl

theorem strData_append (a b : String) : (a ++ b).data = a.data ++ b.data := rfl

theorem isMarker_false_of_dollar1 {s : String} {l : List Char}
    (h : s.data = '$' :: l) : isMarker s = false := by
  unfold isMarker
  rw [h]
  rfl

theorem isMarker_false_of_dollar {s : String} {l : List Char}
    (h : s.data = '$' :: l) (x y z : String) :
    isMarker (s ++ x ++ y ++ z) = false := by
  unfold isMarker
  have hd : (s ++ x ++ y ++ z).data =
      '$' :: (((l ++ x.data) ++ y.data) ++ z.data) := by
    show ((s.data ++ x.data) ++ y.data) ++ z.data = _
    rw [h]
    rfl
  rw [hd]
  rfl

/-- No line produced by a variable encoder is a marker line. -/
theorem format_value_not_marker (var : Variable) (value : Value) (s : String)
    (h : var.format_value value = .ok s) : isMarker s = false := by
  obtain ⟨kind, ident, type, size⟩ := var
  cases kind with
  | scalar =>
    cases value with
    | vStr str =>
      dsimp only [Variable.format_value, ScalarVariable.format_value] at h
      split at h
      · simp at h
      · rename_i hcond
        push_neg at hcond
        simp only [Except.ok.injEq] at h
        subst h
        rcases hcond.2 with h0 | h0 | h0 | h0 | h0 | h0 <;> (subst h0; rfl)
    | vNone =>
      dsimp only [Variable.format_value, ScalarVariable.format_value] at h
      simp only [Except.ok.injEq] at h
      subst h
      rfl
    | vBool b =>
      dsimp only [Variable.format_value, ScalarVariable.format_value] at h
      simp only [Except.ok.injEq] at h
      subst h
      cases b <;> rfl
    | vInt i =>
      dsimp only [Variable.format_value, ScalarVariable.format_value] at h
      simp only [Except.ok.injEq] at h
      subst h
      by_cases hi : i = 0
      · rw [if_neg (by simp [hi])]
        rfl
      · rw [if_pos hi]
        rfl
    | vFloat f =>
      dsimp only [Variable.format_value, ScalarVariable.format_value] at h
      simp only [Except.ok.injEq] at h
      subst h
      by_cases hf : f = 0
      · rw [if_neg (by simp [hf])]
        rfl
      · rw [if_pos hf]
        rfl
  | real =>
    cases value with
    | vInt i =>
      dsimp only [Variable.format_value, RealVariable.format_value] at h
      simp only [Except.ok.injEq] at h
      subst h
      rfl
    | vFloat f =>
      dsimp only [Variable.format_value, RealVariable.format_value] at h
      simp only [Except.ok.injEq] at h
      subst h
      rfl
    | vBool b =>
      dsimp only [Variable.format_value, RealVariable.format_value] at h
      simp only [Except.ok.injEq] at h
      subst h
      cases b <;> rfl
    | vStr str =>
      dsimp only [Variable.format_value, RealVariable.format_value] at h
      simp at h
    | vNone =>
      dsimp only [Variable.format_value, RealVariable.format_value] at h
      simp at h
  | vector =>
    cases value with
    | vInt i =>
      dsimp only [Variable.format_value, VectorVariable.format_value,
        vectorIntFormat] at h
      split at h
      · simp at h
      · simp only [Except.ok.injEq] at h
        subst h
        rfl
    | vBool b =>
      dsimp only [Variable.format_value, VectorVariable.format_value,
        vectorIntFormat] at h
      split at h
      · split at h
        · simp at h
        · simp only [Except.ok.injEq] at h
          subst h
          rfl
      · split at h
        · simp at h
        · simp only [Except.ok.injEq] at h
          subst h
          rfl
    | vNone =>
      dsimp only [Variable.format_value, VectorVariable.format_value] at h
      simp only [Except.ok.injEq] at h
      subst h
      rfl
    | vStr str =>
      dsimp only [Variable.format_value, VectorVariable.format_value] at h
      split at h
      · simp only [Except.ok.injEq] at h
        subst h
        rfl
      · simp at h
    | vFloat f =>
      dsimp only [Variable.format_value, VectorVariable.format_value] at h
      simp at h

/-- Membership in a dictionary after an in-place update. -/
theorem mem_assocSet {α β : Type} [DecidableEq α] {k : α} {v : β}
    {l : List (α × β)} {p : α × β} (h : p ∈ assocSet k v l) :
    p = (k, v) ∨ p ∈ l := by
  induction l with
  | nil =>
    unfold assocSet at h
    rcases List.mem_singleton.mp h with h2
    exact Or.inl h2
  | cons q rest ih =>
    unfold assocSet at h
    split at h
    · rcases List.mem_cons.mp h with h2 | h2
      · exact Or.inl h2
      · exact Or.inr (List.mem_cons_of_mem _ h2)
    · rcases List.mem_cons.mp h with h2 | h2
      · exact Or.inr (h2 ▸ List.mem_cons_self _ _)
      · rcases ih h2 with h3 | h3
        · exact Or.inl h3
        · exact Or.inr (List.mem_cons_of_mem _ h3)

/-- Membership in a dictionary of lists after appending to one entry. -/
theorem mem_assocAppend {α β : Type} [DecidableEq α] {k : α} {x : β}
    {l : List (α × List β)} {e : α × List β} (he : e ∈ assocAppend k x l)
    {s : β} (hs : s ∈ e.2) : s = x ∨ ∃ e2 ∈ l, s ∈ e2.2 := by
  induction l with
  | nil =>
    unfold assocAppend at he
    have h2 := List.mem_singleton.mp he
    rw [h2] at hs
    exact Or.inl (List.mem_singleton.mp hs)
  | cons q rest ih =>
    unfold assocAppend at he
    split at he
    · rcases List.mem_cons.mp he with h2 | h2
      · rw [h2] at hs
        rcases List.mem_append.mp hs with h3 | h3
        · exact Or.inr ⟨q, List.mem_cons_self _ _, h3⟩
        · exact Or.inl (List.mem_singleton.mp h3)
      · exact Or.inr ⟨e, List.mem_cons_of_mem _ h2, hs⟩
    · rcases List.mem_cons.mp he with h2 | h2
      · rw [h2] at hs
        exact Or.inr ⟨q, List.mem_cons_self _ _, hs⟩
      · rcases ih h2 with h3 | h3
        · exact Or.inl h3
        · rcases h3 with ⟨e2, he2, hse2⟩
          exact Or.inr ⟨e2, List.mem_cons_of_mem _ he2, hse2⟩

/-- Facts about the writer state that hold along every run and guarantee
that only marker prints produce `#`-initial lines. -/
def Inv (w : VCDWriter) : Prop :=
  (∀ p ∈ w.ident_values, isMarker p.2 = false) ∧
  (∀ e ∈ w.scope_var_strs, ∀ s ∈ e.2, isMarker s = false) ∧
  (∀ p ∈ w.header_keywords, ∃ l, p.1.data = '$' :: l)

/-- One keyword entry contributes no marker lines. -/
theorem kwEntry_filter_no_marker (k v : String) {lk : List Char}
    (hk : k.data = '$' :: lk) :
    ((if v = "" then [] else
      match splitLines v with
      | [single] => [k ++ " " ++ single ++ " $end"]
      | lines => [k] ++ lines.map (fun ln => "\t" ++ ln) ++ ["$end"]).filter
        isMarker) = [] := by
  have hmap : ∀ ls : List String,
      ((ls.map (fun ln => "\t" ++ ln)).filter isMarker) = [] := by
    intro ls
    rw [List.filter_eq_nil_iff]
    intro a ha
    rcases List.mem_map.mp ha with ⟨ln, _, hln⟩
    rw [← hln]
    have hnot : isMarker ("\t" ++ ln) = false := rfl
    simp [hnot]
  split
  · rfl
  · rcases hsp : splitLines v with _ | ⟨single, _ | ⟨s2, rest2⟩⟩
    · simp only [hsp]
      have h1 : isMarker k = false := isMarker_false_of_dollar1 hk
      have h4 : isMarker "$end" = false := rfl
      simp [List.filter_cons, List.filter_append, h1, h4, hmap []]
    · simp only [hsp]
      have hline := isMarker_false_of_dollar hk " " single " $end"
      simp [List.filter_cons, hline]
    · simp only [hsp]
      rw [List.filter_append, List.filter_append]
      have h1 : ([k].filter isMarker) = [] := by
        simp [List.filter_cons, isMarker_false_of_dollar1 hk]
      rw [h1, hmap (single :: s2 :: rest2)]
      rfl

/-- The keyword portion of the header contributes no marker lines. -/
theorem genHeaderKeywordLines_no_marker (kws : List (String × String))
    (h : ∀ p ∈ kws, ∃ l, p.1.data = '$' :: l) :
    (genHeaderKeywordLines kws).filter isMarker = [] := by
  unfold genHeaderKeywordLines
  have h2 : ∀ p ∈ sortBy kwPairLe kws, ∃ l, p.1.data = '$' :: l :=
    fun p hp => h p ((sortBy_perm kwPairLe kws).mem_iff.mp hp)
  revert h2
  generalize sortBy kwPairLe kws = l2
  intro h2
  induction l2 with
  | nil => rfl
  | cons kv rest ih =>
    obtain ⟨lk, hk⟩ := h2 kv (List.mem_cons_self _ _)
    have hrest := fun p hp => h2 p (List.mem_cons_of_mem _ hp)
    rw [List.foldr_cons, List.filter_append,
      kwEntry_filter_no_marker kv.1 kv.2 hk, ih hrest]
    rfl

/-- The `$scope` open lines contribute no marker lines. -/
theorem scopeOpenLines_no_marker (types : List (List String × Option String))
    (dflt : String) (done segs : List String) :
    (scopeOpenLines types dflt done segs).filter isMarker = [] := by
  induction segs generalizing done with
  | nil => rfl
  | cons name rest ih =>
    have hline : isMarker ("$scope " ++
        resolveScopeType types dflt (done ++ [name]) ++ " " ++ name ++
        " $end") = false := rfl
    simp only [scopeOpenLines, List.filter_cons, hline]
    rw [if_neg (by simp)]
    exact ih (done ++ [name])

/-- `$upscope` closing lines contribute no marker lines. -/
theorem upscopeLines_no_marker (l : List String) :
    ((l.map fun _ => "$upscope $end").filter isMarker) = [] := by
  rw [List.filter_eq_nil_iff]
  intro a ha
  rcases List.mem_map.mp ha with ⟨_, _, hln⟩
  rw [← hln]
  decide

/-- The scope portion of the header contributes no marker lines, as long as
the staged `$var` lines are not marker lines. -/
theorem scopeSection_no_marker (types : List (List String × Option String))
    (dflt : String) (prev : List String)
    (svs : List (List String × List String))
    (h : ∀ e ∈ svs, ∀ s ∈ e.2, isMarker s = false) :
    (scopeSection types dflt prev svs).filter isMarker = [] := by
  induction svs generalizing prev with
  | nil =>
    simp only [scopeSection]
    rw [List.filter_append, upscopeLines_no_marker]
    rfl
  | cons e rest ih =>
    obtain ⟨scope, var_strs⟩ := e
    simp only [scopeSection]
    rw [List.filter_append, List.filter_append]
    have h1 : (scopeDiffLines types dflt prev scope).filter isMarker = [] := by
      unfold scopeDiffLines
      rw [List.filter_append, upscopeLines_no_marker, scopeOpenLines_no_marker]
      rfl
    have h2 : (var_strs.filter isMarker) = [] := by
      rw [List.filter_eq_nil_iff]
      intro a ha
      simp [h (scope, var_strs) (List.mem_cons_self _ _) a ha]
    have h3 := ih scope (fun e2 he2 => h e2 (List.mem_cons_of_mem _ he2))
    rw [h1, h2, h3]
    rfl

/-- The whole generated header contributes no marker lines. -/
theorem gen_header_no_marker (w : VCDWriter) (hinv : Inv w) :
    (gen_header w).filter isMarker = [] := by
  unfold gen_header
  rw [List.filter_append, genHeaderKeywordLines_no_marker _ hinv.2.2,
    scopeSection_no_marker]
  · rfl
  · intro e he s hs
    exact hinv.2.1 e ((sortBy_perm varPairLe w.scope_var_strs).mem_iff.mp he)
      s hs

/-- A `$dumpvars`/`$dumpon` block contributes no marker lines. -/
theorem dumpValuesLines_no_marker (kw : String) {lk : List Char}
    (hk : kw.data = '$' :: lk) (vals : List (String × String))
    (h : ∀ p ∈ vals, isMarker p.2 = false) :
    (dumpValuesLines kw vals).filter isMarker = [] := by
  unfold dumpValuesLines
  rw [List.filter_append, List.filter_append]
  have h1 : ([kw].filter isMarker) = [] := by
    simp [List.filter_cons, isMarker_false_of_dollar1 hk]
  have h2 : ((match vals with
      | [] => [""]
      | vs => vs.map Prod.snd).filter isMarker) = [] := by
    match vals, h with
    | [], _ => rfl
    | p :: vs, h =>
      have hred : (match p :: vs with
          | [] => ([""] : List String)
          | vs2 => vs2.map Prod.snd) = (p :: vs).map Prod.snd := rfl
      rw [hred, List.filter_eq_nil_iff]
      intro a ha
      rcases List.mem_map.mp ha with ⟨q, hq, hqa⟩
      rw [← hqa]
      simp [h q hq]
  rw [h1, h2]
  rfl

/-- A `$dumpoff` block contributes exactly its own timestamp marker. -/
theorem dumpOffLines_markers (t : Nat) (vals : List (String × String)) :
    (dumpOffLines t vals).filter isMarker = [markerStr t] := by
  unfold dumpOffLines
  rw [List.filter_append, List.filter_append]
  have h1 : (["#" ++ toString t, "$dumpoff"].filter isMarker) =
      [markerStr t] := by
    simp only [List.filter_cons, List.filter_nil]
    have hm : isMarker ("#" ++ toString t) = true := rfl
    rw [if_pos hm]
    rfl
  have h2 : ((vals.filterMap dumpOffValueLine).filter isMarker) = [] := by
    rw [List.filter_eq_nil_iff]
    intro a ha
    rcases List.mem_filterMap.mp ha with ⟨p, _, hp⟩
    unfold dumpOffValueLine at hp
    split at hp
    · simp only [Option.some.injEq] at hp
      rw [← hp]
      have hbx : isMarker ("bx " ++ p.1) = false := rfl
      simp [hbx]
    · simp at hp
    · simp only [Option.some.injEq] at hp
      rw [← hp]
      have hx : isMarker ("x" ++ p.1) = false := rfl
      simp [hx]
  have h3 : (["$end"].filter isMarker) = [] := rfl
  rw [h1, h2, h3]
  rfl

/-- `finalize_registration` preserves the invariant, leaves the registration
phase, keeps dumping, cursor, cache and the closed flag, and its output
contributes at most one `#0` marker (from the `$dumpoff` block synthesized at
time 0 when dumping is already suspended). -/
theorem finalize_effects (w : VCDWriter) (hinv : Inv w) :
    Inv (finalize_registration w).1 ∧
    (finalize_registration w).1.registering = false ∧
    (finalize_registration w).1.dumping = w.dumping ∧
    (finalize_registration w).1.prev_timestamp = w.prev_timestamp ∧
    (finalize_registration w).1.ident_values = w.ident_values ∧
    (finalize_registration w).1.closed = w.closed ∧
    ((finalize_registration w).2.filter isMarker = [] ∨
     (finalize_registration w).2.filter isMarker = [markerStr 0]) := by
  obtain ⟨hc, hs, hk⟩ := hinv
  refine ⟨⟨hc, ?_, ?_⟩, rfl, rfl, rfl, rfl, rfl, ?_⟩
  · intro e he
    simp [finalize_registration] at he
  · intro p hp
    simp [finalize_registration] at hp
  · unfold finalize_registration
    dsimp only
    rw [List.filter_append, gen_header_no_marker w ⟨hc, hs, hk⟩]
    by_cases hvals : w.ident_values ≠ []
    · rw [if_pos hvals, List.filter_append,
        dumpValuesLines_no_marker "$dumpvars" rfl w.ident_values hc]
      by_cases hd : w.dumping = true
      · rw [if_pos hd]
        left
        rfl
      · rw [if_neg hd, dumpOffLines_markers]
        right
        rfl
    · rw [if_neg hvals]
      left
      rfl

/-- The marker/invariant bundle for `change`: the invariant is preserved, the
registration flag never turns back on, and the marker lines of the output are
a possible `#0` from header finalization followed by a possible `#ts`. -/
theorem change_markers (w : VCDWriter) (var : Variable) (ts : Nat)
    (value : Value) (hinv : Inv w) :
    Inv (change w var ts value).st ∧
    ((change w var ts value).st.registering = true → w.registering = true) ∧
    ∃ pre own,
      ((change w var ts value).out.filter isMarker =
        ((pre ++ own).map markerStr)) ∧
      (pre = [] ∨ (pre = [0] ∧ w.registering = true)) ∧
      (own = [] ∨ own = [ts]) ∧
      ((pre ≠ [] ∨ own ≠ []) →
        (change w var ts value).st.registering = false) := by
  unfold change
  by_cases h1 : ts < w.prev_timestamp
  · rw [if_pos h1]
    exact ⟨hinv, fun h => h, [], [], rfl, Or.inl rfl, Or.inl rfl,
      fun hc => by rcases hc with hc | hc <;> exact absurd rfl hc⟩
  · rw [if_neg h1]
    by_cases hcl : w.closed = true
    · rw [if_pos hcl]
      exact ⟨hinv, fun h => h, [], [], rfl, Or.inl rfl, Or.inl rfl,
        fun hc => by rcases hc with hc | hc <;> exact absurd rfl hc⟩
    · rw [if_neg hcl]
      rcases hfmt : var.format_value value with e | val_str <;>
        simp only [hfmt]
      · exact ⟨hinv, fun h => h, [], [], rfl, Or.inl rfl, Or.inl rfl,
          fun hc => by rcases hc with hc | hc <;> exact absurd rfl hc⟩
      · have hval : isMarker val_str = false :=
          format_value_not_marker var value val_str hfmt
        have hmk : isMarker ("#" ++ toString ts) = true := rfl
        by_cases hr : ts ≠ 0 ∧ w.registering = true
        · rw [if_pos hr]
          obtain ⟨hinv2, hreg2, hdump2, hprev2, _, _, hfil2⟩ :=
            finalize_effects w ⟨hinv.1, hinv.2.1, hinv.2.2⟩
          have hpre : ∃ pre,
              (finalize_registration w).2.filter isMarker =
                pre.map markerStr ∧
              (pre = [] ∨ (pre = [0] ∧ w.registering = true)) := by
            rcases hfil2 with hf | hf
            · exact ⟨[], by rw [hf]; rfl, Or.inl rfl⟩
            · exact ⟨[0], by rw [hf]; rfl, Or.inr ⟨rfl, hr.2⟩⟩
          obtain ⟨pre, hpre1, hpre2⟩ := hpre
          by_cases hd : ts ≠ 0 ∧ (finalize_registration w).1.dumping = true
          · rw [if_pos hd]
            by_cases hgt : ts > (finalize_registration w).1.prev_timestamp
            · rw [if_pos hgt]
              refine ⟨hinv2, fun h => absurd (hreg2 ▸ h) (by simp), pre, [ts],
                ?_, hpre2, Or.inr rfl, fun _ => hreg2⟩
              rw [List.filter_append, hpre1]
              have : (["#" ++ toString ts, val_str].filter isMarker) =
                  [markerStr ts] := by
                simp only [List.filter_cons, List.filter_nil, hmk, hval]
                rfl
              rw [this, List.map_append]
              rfl
            · rw [if_neg hgt]
              refine ⟨hinv2, fun h => absurd (hreg2 ▸ h) (by simp), pre, [],
                ?_, hpre2, Or.inl rfl, fun _ => hreg2⟩
              rw [List.filter_append, hpre1]
              have : ([val_str].filter isMarker) = [] := by
                simp [List.filter_cons, hval]
              rw [this]
              simp
          · rw [if_neg hd]
            refine ⟨⟨?_, hinv2.2.1, hinv2.2.2⟩,
              fun h => absurd (hreg2 ▸ h) (by simp), pre, [], ?_, hpre2,
              Or.inl rfl, fun _ => hreg2⟩
            · intro p hp
              rcases mem_assocSet hp with h2 | h2
              · rw [h2]
                exact hval
              · exact hinv2.1 p h2
            · rw [hpre1]
              simp
        · rw [if_neg hr]
          by_cases hd : ts ≠ 0 ∧ w.dumping = true
          · rw [if_pos hd]
            have hwreg : w.registering = false := by
              cases hwr : w.registering
              · rfl
              · exact absurd ⟨hd.1, hwr⟩ hr
            by_cases hgt : ts > w.prev_timestamp
            · rw [if_pos hgt]
              refine ⟨hinv, fun h => h, [], [ts], ?_, Or.inl rfl, Or.inr rfl,
                fun _ => hwreg⟩
              show (["#" ++ toString ts, val_str].filter isMarker) = _
              simp only [List.filter_cons, List.filter_nil, hmk, hval]
              rfl
            · rw [if_neg hgt]
              refine ⟨hinv, fun h => h, [], [], ?_, Or.inl rfl, Or.inl rfl,
                fun hc => by rcases hc with hc | hc <;> exact absurd rfl hc⟩
              show (([] ++ [val_str]).filter isMarker) = _
              simp [List.filter_cons, hval]
          · rw [if_neg hd]
            refine ⟨⟨?_, hinv.2.1, hinv.2.2⟩, fun h => h, [], [], rfl,
              Or.inl rfl, Or.inl rfl,
              fun hc => by rcases hc with hc | hc <;> exact absurd rfl hc⟩
            intro p hp
            rcases mem_assocSet hp with h2 | h2
            · rw [h2]
              exact hval
            · exact hinv.1 p h2

/-- `change` at timestamp 0 prints nothing and only touches the value
cache. -/
theorem change_zero (w : VCDWriter) (var : Variable) (value : Value)
    (hinv : Inv w) :
    Inv (change w var 0 value).st ∧
    (change w var 0 value).st.registering = w.registering ∧
    (change w var 0 value).st.scope_var_strs = w.scope_var_strs ∧
    (change w var 0 value).st.header_keywords = w.header_keywords ∧
    (change w var 0 value).out = [] := by
  unfold change
  by_cases h1 : (0 : Nat) < w.prev_timestamp
  · rw [if_pos h1]
    exact ⟨hinv, rfl, rfl, rfl, rfl⟩
  · rw [if_neg h1]
    by_cases hcl : w.closed = true
    · rw [if_pos hcl]
      exact ⟨hinv, rfl, rfl, rfl, rfl⟩
    · rw [if_neg hcl]
      rcases hfmt : var.format_value value with e | val_str <;>
        simp only [hfmt]
      · exact ⟨hinv, trivial, trivial, trivial, trivial⟩
      · rw [if_neg (by simp), if_neg (by simp)]
        refine ⟨⟨?_, hinv.2.1, hinv.2.2⟩, rfl, rfl, rfl, rfl⟩
        intro p hp
        rcases mem_assocSet hp with h2 | h2
        · rw [h2]
          exact format_value_not_marker var value val_str hfmt
        · exact hinv.1 p h2

/-- `register_var` prints nothing, preserves the invariant and does not
change the phase flags. -/
theorem register_markers (w : VCDWriter) (scope : List String)
    (name var_type : String) (size : Nat) (init : Value)
    (identArg : Option String) (hinv : Inv w) :
    Inv (register_var w scope name var_type size init identArg).st ∧
    (register_var w scope name var_type size init identArg).st.registering =
      w.registering ∧
    (register_var w scope name var_type size init identArg).out = [] := by
  unfold register_var
  by_cases hcl : w.closed = true
  · rw [if_pos hcl]
    exact ⟨hinv, rfl, rfl⟩
  · rw [if_neg hcl]
    by_cases hreg : ¬ w.registering = true
    · rw [if_pos hreg]
      exact ⟨hinv, rfl, rfl⟩
    · rw [if_neg hreg]
      by_cases hvt : ¬ VAR_TYPES.contains var_type = true
      · rw [if_pos hvt]
        exact ⟨hinv, rfl, rfl⟩
      · rw [if_neg hvt]
        dsimp only
        have hinv1 : Inv { w with scope_var_names :=
            (assocSetdefault scope ([] : List String) w.scope_var_names).2 } :=
          ⟨hinv.1, hinv.2.1, hinv.2.2⟩
        split
        · exact ⟨hinv1, rfl, rfl⟩
        · obtain ⟨hinvc, hregc, hsvsc, hkwsc, houtc⟩ :=
            change_zero { w with scope_var_names :=
                (assocSetdefault scope ([] : List String) w.scope_var_names).2 }
              (mkVariable (identArg.getD ("v" ++ toString w.next_var_id))
                var_type size)
              (if init = Value.vNone then
                (if var_type = "real" then Value.vFloat 0 else Value.vStr "x")
               else init) hinv1
          split
          · exact ⟨hinvc, hregc, houtc⟩
          · refine ⟨⟨hinvc.1, ?_, ?_⟩, hregc, houtc⟩
            · intro e he s hs
              rcases mem_assocAppend he hs with h2 | h2
              · rw [h2]
                rfl
              · rcases h2 with ⟨e2, he2, hse2⟩
                rw [hsvsc] at he2
                exact hinv.2.1 e2 he2 s hse2
            · intro p hp
              rw [hkwsc] at hp
              exact hinv.2.2 p hp

/-- `dump_off` preserves the invariant and contributes its own marker only
when it really writes a block (which requires the Live phase). -/
theorem dump_off_markers (w : VCDWriter) (t : Nat) (hinv : Inv w) :
    Inv (dump_off w t).st ∧
    (dump_off w t).st.registering = w.registering ∧
    ∃ own, ((dump_off w t).out.filter isMarker = own.map markerStr) ∧
      (own = [] ∨ own = [t]) ∧
      (own ≠ [] → w.registering = false) := by
  refine ⟨⟨hinv.1, hinv.2.1, hinv.2.2⟩, rfl, ?_⟩
  unfold dump_off
  dsimp only
  split
  · rename_i hcond
    refine ⟨[t], by rw [dumpOffLines_markers]; rfl, Or.inr rfl, fun _ => ?_⟩
    have := hcond.2.1
    cases hwr : w.registering
    · rfl
    · exact absurd hwr this
  · exact ⟨[], rfl, Or.inl rfl, fun hc => absurd rfl hc⟩

/-- `dump_on` preserves the invariant and contributes its own marker only
when it really writes a block (which requires the Live phase). -/
theorem dump_on_markers (w : VCDWriter) (t : Nat) (hinv : Inv w) :
    Inv (dump_on w t).st ∧
    (dump_on w t).st.registering = w.registering ∧
    ∃ own, ((dump_on w t).out.filter isMarker = own.map markerStr) ∧
      (own = [] ∨ own = [t]) ∧
      (own ≠ [] → w.registering = false) := by
  refine ⟨⟨hinv.1, hinv.2.1, hinv.2.2⟩, rfl, ?_⟩
  unfold dump_on
  dsimp only
  split
  · rename_i hcond
    refine ⟨[t], ?_, Or.inr rfl, fun _ => ?_⟩
    · have hm : isMarker ("#" ++ toString t) = true := rfl
      simp only [List.filter_cons, hm, if_pos]
      rw [dumpValuesLines_no_marker "$dumpon" rfl w.ident_values hinv.1]
      rfl
    · have := hcond.2.1
      cases hwr : w.registering
      · rfl
      · exact absurd hwr this
  · exact ⟨[], rfl, Or.inl rfl, fun hc => absurd rfl hc⟩

/-- The marker/invariant bundle for `flush`. -/
theorem flush_markers (w : VCDWriter) (ts : Option Nat) (hinv : Inv w) :
    Inv (flush w ts).st ∧
    ((flush w ts).st.registering = true → w.registering = true) ∧
    ∃ pre own,
      ((flush w ts).out.filter isMarker = ((pre ++ own).map markerStr)) ∧
      (pre = [] ∨ (pre = [0] ∧ w.registering = true)) ∧
      (own = [] ∨ ∃ t, ts = some t ∧ own = [t]) ∧
      ((pre ≠ [] ∨ own ≠ []) → (flush w ts).st.registering = false) := by
  unfold flush
  by_cases hcl : w.closed = true
  · rw [if_pos hcl]
    exact ⟨hinv, fun h => h, [], [], rfl, Or.inl rfl, Or.inl rfl,
      fun hc => by rcases hc with hc | hc <;> exact absurd rfl hc⟩
  · rw [if_neg hcl]
    by_cases hreg : w.registering = true
    · rw [if_pos hreg]
      dsimp only
      obtain ⟨hinv2, hreg2, _, _, _, _, hfil2⟩ :=
        finalize_effects w ⟨hinv.1, hinv.2.1, hinv.2.2⟩
      have hpre : ∃ pre,
          (finalize_registration w).2.filter isMarker = pre.map markerStr ∧
          (pre = [] ∨ (pre = [0] ∧ w.registering = true)) := by
        rcases hfil2 with hf | hf
        · exact ⟨[], by rw [hf]; rfl, Or.inl rfl⟩
        · exact ⟨[0], by rw [hf]; rfl, Or.inr ⟨rfl, hreg⟩⟩
      obtain ⟨pre, hpre1, hpre2⟩ := hpre
      rcases ts with _ | t
      · refine ⟨hinv2, fun h => absurd (hreg2 ▸ h) (by simp), pre, [], ?_,
          hpre2, Or.inl rfl, fun _ => hreg2⟩
        simp only [flushMarker]
        rw [List.filter_append, hpre1]
        simp
      · simp only [flushMarker]
        by_cases hgt : t > (finalize_registration w).1.prev_timestamp
        · rw [if_pos hgt]
          refine ⟨hinv2, fun h => absurd (hreg2 ▸ h) (by simp), pre, [t], ?_,
            hpre2, Or.inr ⟨t, rfl, rfl⟩, fun _ => hreg2⟩
          rw [List.filter_append, hpre1]
          have : (["#" ++ toString t].filter isMarker) = [markerStr t] := by
            have hm : isMarker ("#" ++ toString t) = true := rfl
            simp only [List.filter_cons, List.filter_nil, hm, if_pos]
            rfl
          rw [this, List.map_append]
          rfl
        · rw [if_neg hgt]
          refine ⟨hinv2, fun h => absurd (hreg2 ▸ h) (by simp), pre, [], ?_,
            hpre2, Or.inl rfl, fun _ => hreg2⟩
          rw [List.filter_append, hpre1]
          simp
    · rw [if_neg hreg]
      dsimp only
      have hwreg : w.registering = false := by
        cases hwr : w.registering
        · rfl
        · exact absurd hwr hreg
      rcases ts with _ | t
      · exact ⟨hinv, fun h => h, [], [], rfl, Or.inl rfl, Or.inl rfl,
          fun _ => hwreg⟩
      · simp only [flushMarker]
        by_cases hgt : t > w.prev_timestamp
        · rw [if_pos hgt]
          refine ⟨hinv, fun h => h, [], [t], ?_, Or.inl rfl,
            Or.inr ⟨t, rfl, rfl⟩, fun _ => hwreg⟩
          show (([] ++ ["#" ++ toString t]).filter isMarker) = _
          have hm : isMarker ("#" ++ toString t) = true := rfl
          simp only [List.nil_append, List.filter_cons, List.filter_nil, hm,
            if_pos]
          rfl
        · rw [if_neg hgt]
          exact ⟨hinv, fun h => h, [], [], rfl, Or.inl rfl, Or.inl rfl,
            fun _ => hwreg⟩

/-- The marker/invariant bundle for `close`. -/
theorem close_markers (w : VCDWriter) (ts : Option Nat) (hinv : Inv w) :
    Inv (close w ts).st ∧
    ((close w ts).st.registering = true → w.registering = true) ∧
    ∃ pre own,
      ((close w ts).out.filter isMarker = ((pre ++ own).map markerStr)) ∧
      (pre = [] ∨ (pre = [0] ∧ w.registering = true)) ∧
      (own = [] ∨ ∃ t, ts = some t ∧ own = [t]) ∧
      ((pre ≠ [] ∨ own ≠ []) → (close w ts).st.registering = false) := by
  unfold close
  by_cases hcl : w.closed = true
  · rw [if_pos hcl]
    exact ⟨hinv, fun h => h, [], [], rfl, Or.inl rfl, Or.inl rfl,
      fun hc => by rcases hc with hc | hc <;> exact absurd rfl hc⟩
  · rw [if_neg hcl]
    obtain ⟨hinvf, hmono, pre, own, hfil, hpre, hown, hregf⟩ :=
      flush_markers w ts hinv
    rcases hfr : flush w ts with ⟨err, st, out⟩
    rw [hfr] at hinvf hmono hfil hregf
    cases err with
    | none =>
      exact ⟨⟨hinvf.1, hinvf.2.1, hinvf.2.2⟩, hmono, pre, own, hfil, hpre,
        hown, hregf⟩
    | some e =>
      exact ⟨hinvf, hmono, pre, own, hfil, hpre, hown, hregf⟩

/-- `set_scope_type` prints nothing and touches only the scope-type map. -/
theorem set_scope_type_markers (w : VCDWriter) (scope : List String)
    (scope_type : Option String) (hinv : Inv w) :
    Inv (set_scope_type w scope scope_type).st ∧
    (set_scope_type w scope scope_type).st.registering = w.registering ∧
    (set_scope_type w scope scope_type).out = [] := by
  unfold set_scope_type
  rcases scope_type with _ | t
  · exact ⟨⟨hinv.1, hinv.2.1, hinv.2.2⟩, rfl, rfl⟩
  · dsimp only
    split
    · exact ⟨hinv, rfl, rfl⟩
    · exact ⟨⟨hinv.1, hinv.2.1, hinv.2.2⟩, rfl, rfl⟩

/-- The marker/invariant bundle for any single call. -/
theorem applyOp_markers (w : VCDWriter) (op : Op) (hinv : Inv w) :
    Inv (applyOp w op).st ∧
    ((applyOp w op).st.registering = true → w.registering = true) ∧
    ∃ pre own,
      ((applyOp w op).out.filter isMarker = ((pre ++ own).map markerStr)) ∧
      (pre = [] ∨ (pre = [0] ∧ w.registering = true)) ∧
      (own = [] ∨ ∃ t, op.ts? = some t ∧ own = [t]) ∧
      ((pre ≠ [] ∨ own ≠ []) → (applyOp w op).st.registering = false) := by
  cases op with
  | opChange var ts value =>
    obtain ⟨h1, h2, pre, own, h3, h4, h5, h6⟩ := change_markers w var ts value hinv
    refine ⟨h1, h2, pre, own, h3, h4, ?_, h6⟩
    rcases h5 with h5 | h5
    · exact Or.inl h5
    · exact Or.inr ⟨ts, rfl, h5⟩
  | opRegister scope name vt size init identArg =>
    dsimp only [applyOp]
    obtain ⟨h1, h2, h3⟩ := register_markers w scope name vt size init identArg hinv
    exact ⟨h1, fun h => h2 ▸ h, [], [], by rw [h3]; rfl, Or.inl rfl, Or.inl rfl,
      fun hc => by rcases hc with hc | hc <;> exact absurd rfl hc⟩
  | opDumpOff t =>
    dsimp only [applyOp]
    obtain ⟨h1, h2, own, h3, h4, h5⟩ := dump_off_markers w t hinv
    exact ⟨h1, fun h => h2 ▸ h, [], own, h3, Or.inl rfl,
      (by rcases h4 with h4 | h4
          · exact Or.inl h4
          · exact Or.inr ⟨t, rfl, h4⟩),
      fun hc => by
        rcases hc with hc | hc
        · exact absurd rfl hc
        · rw [h2]
          exact h5 hc⟩
  | opDumpOn t =>
    dsimp only [applyOp]
    obtain ⟨h1, h2, own, h3, h4, h5⟩ := dump_on_markers w t hinv
    exact ⟨h1, fun h => h2 ▸ h, [], own, h3, Or.inl rfl,
      (by rcases h4 with h4 | h4
          · exact Or.inl h4
          · exact Or.inr ⟨t, rfl, h4⟩),
      fun hc => by
        rcases hc with hc | hc
        · exact absurd rfl hc
        · rw [h2]
          exact h5 hc⟩
  | opFlush ts => exact flush_markers w ts hinv
  | opClose ts => exact close_markers w ts hinv
  | opSetScopeType scope t =>
    dsimp only [applyOp]
    obtain ⟨h1, h2, h3⟩ := set_scope_type_markers w scope t hinv
    exact ⟨h1, fun h => h2 ▸ h, [], [], by rw [h3]; rfl, Or.inl rfl, Or.inl rfl,
      fun hc => by rcases hc with hc | hc <;> exact absurd rfl hc⟩

theorem chain'_le_cons_of_le {a b : Nat} {l : List Nat} (hab : b ≤ a)
    (h : List.Chain' (· ≤ ·) (a :: l)) : List.Chain' (· ≤ ·) (b :: l) := by
  rcases List.chain'_cons'.mp h with ⟨hh, ht⟩
  exact List.chain'_cons'.mpr ⟨fun y hy => le_trans hab (hh y hy), ht⟩

theorem chain'_zero_cons {l : List Nat} (h : List.Chain' (· ≤ ·) l) :
    List.Chain' (· ≤ ·) ((0 : Nat) :: l) :=
  List.chain'_cons'.mpr ⟨fun y _ => Nat.zero_le y, h⟩

/-- Generalized induction for C5: along any run whose supplied timestamps are
bounded below by `lb` and non-decreasing, the marker lines are exactly the
`#<int>` renderings of a non-decreasing integer list bounded below by `lb`. -/
theorem c5_aux (ops : List Op) (w : VCDWriter) (lb : Nat) (hinv : Inv w)
    (hts : List.Chain' (· ≤ ·) (lb :: tsListOf ops))
    (hreg : w.registering = true → lb = 0) :
    ∃ ms : List Nat,
      ((runOps w ops).2).filter isMarker = ms.map markerStr ∧
      List.Chain' (· ≤ ·) (lb :: ms) := by
  induction ops generalizing w lb with
  | nil => exact ⟨[], rfl, List.chain'_singleton lb⟩
  | cons op rest ih =>
    obtain ⟨hinv2, hmono, pre, own, hfil, hpre, hown, hregf⟩ :=
      applyOp_markers w op hinv
    have hrun : (runOps w (op :: rest)).2 =
        (applyOp w op).out ++ (runOps (applyOp w op).st rest).2 := rfl
    rcases hown with hown | ⟨t, hopts, hown⟩
    · -- the op emitted no own marker
      subst hown
      have htsrest : List.Chain' (· ≤ ·) (lb :: tsListOf rest) := by
        unfold tsListOf at hts ⊢
        rw [List.filterMap_cons] at hts
        rcases hop : op.ts? with _ | t2
        · rw [hop] at hts
          exact hts
        · rw [hop] at hts
          rcases List.chain'_cons.mp hts with ⟨hlb, hch⟩
          exact chain'_le_cons_of_le hlb hch
      rcases hpre with hpre | ⟨hpre, hwreg⟩
      · -- no markers at all from this op
        subst hpre
        obtain ⟨ms, hms1, hms2⟩ := ih (applyOp w op).st lb hinv2 htsrest
          (fun h => hreg (hmono h))
        refine ⟨ms, ?_, hms2⟩
        rw [hrun, List.filter_append, hfil, hms1]
        rfl
      · -- a lone #0 from finalization
        subst hpre
        have hlb0 : lb = 0 := hreg hwreg
        subst hlb0
        obtain ⟨ms, hms1, hms2⟩ := ih (applyOp w op).st 0 hinv2
          (chain'_zero_cons ((List.chain'_cons'.mp htsrest).2))
          (fun _ => rfl)
        refine ⟨0 :: ms, ?_, ?_⟩
        · rw [hrun, List.filter_append, hfil, hms1]
          rfl
        · exact List.chain'_cons.mpr ⟨Nat.le_refl 0, hms2⟩
    · -- the op emitted its own #t marker
      subst hown
      have hts2 : lb ≤ t ∧ List.Chain' (· ≤ ·) (t :: tsListOf rest) := by
        unfold tsListOf at hts ⊢
        rw [List.filterMap_cons, hopts] at hts
        exact ⟨(List.chain'_cons.mp hts).1, (List.chain'_cons.mp hts).2⟩
      have hregst : (applyOp w op).st.registering = false :=
        hregf (Or.inr (by simp))
      obtain ⟨ms, hms1, hms2⟩ := ih (applyOp w op).st t hinv2 hts2.2
        (fun h => absurd (hregst ▸ h) (by simp))
      rcases hpre with hpre | ⟨hpre, hwreg⟩
      · subst hpre
        refine ⟨t :: ms, ?_, ?_⟩
        · rw [hrun, List.filter_append, hfil, hms1]
          rfl
        · exact List.chain'_cons.mpr ⟨hts2.1, hms2⟩
      · subst hpre
        have hlb0 : lb = 0 := hreg hwreg
        subst hlb0
        refine ⟨0 :: t :: ms, ?_, ?_⟩
        · rw [hrun, List.filter_append, hfil, hms1]
          rfl
        · exact List.chain'_cons.mpr ⟨Nat.le_refl 0,
            List.chain'_cons.mpr ⟨Nat.zero_le t, hms2⟩⟩

/-- C5 (counterexample): after going live at time 10, `dump_off(5)` emits the
marker `#5` unchecked — the stream's markers are `#10` then `#5`, which is
decreasing, so markers are not non-decreasing across every operation. -/
theorem c5_counterexample :
    ((runOps sampleWriter
      [ .opRegister ["top"] "sig" "wire" 1 (.vStr "0") none,
        .opChange ⟨.scalar, "v0", "wire", 1⟩ 10 (.vStr "1"),
        .opDumpOff 5 ]).2.filter isMarker) = ["#10", "#5"] ∧
    ¬ ((10 : Nat) ≤ 5) := by
  refine ⟨by decide, by decide⟩

/-- C5 (amended): provided the caller supplies non-decreasing timestamps
across all operations, every `#<integer>` marker line in the whole stream is
non-decreasing (the writer itself enforces this only for `change`; `flush`,
`dump_off` and `dump_on` print the given timestamp unchecked, so an earlier
timestamp there produces a decreasing marker). -/
theorem c5_markers_nondecreasing (ops : List Op)
    (timescale date comment version dflt sep : String)
    (hts : List.Chain' (· ≤ ·) (tsListOf ops)) :
    ∃ ms : List Nat,
      ((runOps (VCDWriter.init timescale date comment version dflt sep)
        ops).2).filter isMarker = ms.map markerStr ∧
      List.Chain' (· ≤ ·) ms := by
  have hinv : Inv (VCDWriter.init timescale date comment version dflt sep) := by
    refine ⟨?_, ?_, ?_⟩
    · intro p hp
      simp [VCDWriter.init] at hp
    · intro e he
      simp [VCDWriter.init] at he
    · intro p hp
      simp only [VCDWriter.init] at hp
      rcases List.mem_cons.mp hp with h | hp2
      · exact ⟨['t', 'i', 'm', 'e', 's', 'c', 'a', 'l', 'e'], by rw [h]⟩
      rcases List.mem_cons.mp hp2 with h | hp3
      · exact ⟨['d', 'a', 't', 'e'], by rw [h]⟩
      rcases List.mem_cons.mp hp3 with h | hp4
      · exact ⟨['c', 'o', 'm', 'm', 'e', 'n', 't'], by rw [h]⟩
      rcases List.mem_cons.mp hp4 with h | hp5
      · exact ⟨['v', 'e', 'r', 's', 'i', 'o', 'n'], by rw [h]⟩
      · exact absurd hp5 (by simp)
  obtain ⟨ms, h1, h2⟩ := c5_aux ops _ 0 hinv (chain'_zero_cons hts)
    (fun _ => rfl)
  exact ⟨ms, h1, (List.chain'_cons'.mp h2).2⟩

/-- C5 (witness): a concrete run with non-decreasing timestamps 5, 7, 9. -/
theorem c5_witness :
    ∃ ms : List Nat,
      ((runOps (VCDWriter.init "1 us" "today" "" "" "module" ".")
        [ .opRegister ["top"] "sig" "wire" 1 (.vStr "0") none,
          .opChange ⟨.scalar, "v0", "wire", 1⟩ 5 (.vStr "1"),
          .opDumpOff 7,
          .opDumpOn 9 ]).2).filter isMarker = ms.map markerStr ∧
      List.Chain' (· ≤ ·) ms :=
  c5_markers_nondecreasing
    [ .opRegister ["top"] "sig" "wire" 1 (.vStr "0") none,
      .opChange ⟨.scalar, "v0", "wire", 1⟩ 5 (.vStr "1"),
      .opDumpOff 7,
      .opDumpOn 9 ] "1 us" "today" "" "" "module" "."
    (by
      show List.Chain' (· ≤ ·) [5, 7, 9]
      exact List.chain'_cons.mpr ⟨by decide,
        List.chain'_cons.mpr ⟨by decide, List.chain'_singleton 9⟩⟩)

end VCD
